import Mathlib

/-!
Verification model of the BOCRA multi-tenant OCR service core.

The durable data model is embedded from src/database/schema.sql:
tables ip_users, documents, processing_queue, user_sessions, together with
the trigger function update_user_stats (counter maintenance on document
INSERT/DELETE), the function cleanup_expired_sessions, the unique
constraint unique_file_per_ip, the default values (priority 5,
max_attempts 3, quota 1 GiB, session expiry NOW() + 24 hours) and the
row-level-security policy document_isolation (every read is filtered by
the caller's ip_hash).

The application-level operations (DocumentStore.register_upload/get/delete,
JobScheduler.lease_next/report_success/report_failure/
reclaim_expired_leases, SessionManager.init) are not present in the
source tree; they are modelled from the spec, faithful to its words, on
top of the schema-derived state.  Time is an abstract Nat clock whose
unit is one hour (so the 24-hour session interval is the constant 24).
-/

namespace Bocra

/-- Status column of the documents table:
CHECK (status IN ('pending','processing','completed','error','cancelled')). -/
inductive DocStatus where
  | pending
  | processing
  | completed
  | error
  | cancelled
deriving DecidableEq, Repr

/-- Row of the ip_users table (tenant registry).  Counter columns are
INTEGER/BIGINT in SQL, embedded as Int; quota_limit_bytes defaults to
1073741824 (1 GiB). -/
structure IpUser where
  ip_hash : Nat
  document_count : Int
  storage_used_bytes : Int
  quota_limit_bytes : Int
deriving DecidableEq, Repr

/-- Row of the documents table.  file_hash is the content fingerprint;
the pair (ip_hash, file_hash) is unique (constraint unique_file_per_ip). -/
structure Document where
  document_id : Nat
  ip_hash : Nat
  filename : String
  file_hash : Nat
  original_size : Nat
  status : DocStatus
  retry_count : Nat
  error_message : Option String
  created_at : Nat
deriving DecidableEq, Repr

/-- Row of the processing_queue table.  priority defaults to 5 (lower =
more urgent), max_attempts defaults to 3; worker_id is NULL when the job
is unleased; lease_expires models the lease expiry stamped by lease_next
(now + lease_duration). -/
structure Job where
  queue_id : Nat
  document_id : Nat
  ip_hash : Nat
  priority : Nat
  attempts : Nat
  max_attempts : Nat
  last_error : Option String
  scheduled_for : Nat
  worker_id : Option Nat
  lease_expires : Option Nat
  created_at : Nat
deriving DecidableEq, Repr

/-- Row of the user_sessions table. -/
structure Session where
  session_id : Nat
  ip_hash : Nat
  created_at : Nat
  last_accessed : Nat
  expires_at : Nat
  is_active : Bool
deriving DecidableEq, Repr

/-- Whole durable state: the four tables the claims touch, a fresh-id
counter (uuid generation) and the clock. -/
structure DBState where
  users : List IpUser
  documents : List Document
  queue : List Job
  sessions : List Session
  nextId : Nat
  now : Nat
deriving DecidableEq, Repr

/-- Empty initial state. -/
def initState : DBState :=
  { users := [], documents := [], queue := [], sessions := [], nextId := 0, now := 0 }

/-- Default quota: BIGINT DEFAULT 1073741824 in ip_users. -/
def default_quota_bytes : Int := 1073741824

/-- Default job priority: INTEGER DEFAULT 5 in processing_queue. -/
def default_priority : Nat := 5

/-- Default attempt limit: INTEGER DEFAULT 3 in processing_queue. -/
def default_max_attempts : Nat := 3

/-- Session lifetime: expires_at defaults to NOW() + INTERVAL '24 hours'
in user_sessions; the clock unit is one hour. -/
def session_ttl_hours : Nat := 24

/-- Number of non-deleted documents a tenant owns. -/
def tenantDocCount (t : Nat) (l : List Document) : Nat :=
  (l.filter (fun d => d.ip_hash == t)).length

/-- Total bytes of a tenant's non-deleted documents. -/
def tenantBytes (t : Nat) (l : List Document) : Nat :=
  ((l.filter (fun d => d.ip_hash == t)).map (fun d => d.original_size)).sum

/-- INSERT branch of the trigger function update_user_stats:
INSERT INTO ip_users (ip_hash, document_count, storage_used_bytes)
VALUES (NEW.ip_hash, 1, NEW.original_size)
ON CONFLICT (ip_hash) DO UPDATE SET document_count = document_count + 1,
storage_used_bytes = storage_used_bytes + NEW.original_size. -/
def update_user_stats_insert (users : List IpUser) (t : Nat) (sz : Nat) : List IpUser :=
  if users.any (fun u => u.ip_hash == t) then
    users.map (fun u =>
      if u.ip_hash == t then
        { u with document_count := u.document_count + 1,
                 storage_used_bytes := u.storage_used_bytes + (sz : Int) }
      else u)
  else
    { ip_hash := t, document_count := 1, storage_used_bytes := (sz : Int),
      quota_limit_bytes := default_quota_bytes } :: users

/-- DELETE branch of the trigger function update_user_stats:
UPDATE ip_users SET document_count = document_count - 1,
storage_used_bytes = storage_used_bytes - OLD.original_size
WHERE ip_hash = OLD.ip_hash. -/
def update_user_stats_delete (users : List IpUser) (t : Nat) (sz : Nat) : List IpUser :=
  users.map (fun u =>
    if u.ip_hash == t then
      { u with document_count := u.document_count - 1,
               storage_used_bytes := u.storage_used_bytes - (sz : Int) }
    else u)

/-- Modelled from the spec: IsolationEnforcer first-contact side effect —
"first-contact calls create a Tenant record if absent" (the backend
application code is absent from the source tree).  Counters start at 0
and the quota at the schema default. -/
def first_contact (s : DBState) (t : Nat) : DBState :=
  if s.users.any (fun u => u.ip_hash == t) then s
  else { s with users :=
    { ip_hash := t, document_count := 0, storage_used_bytes := 0,
      quota_limit_bytes := default_quota_bytes } :: s.users }

/-- Result of register_upload, per the spec's signature
register_upload -> Document | DuplicateDocumentError | QuotaExceededError
(the duplicate case is resolved transparently to the existing record). -/
inductive UploadResult where
  | created (d : Document)
  | existing (d : Document)
  | quotaExceeded
  | noTenant
deriving DecidableEq, Repr

/-- Modelled from the spec: DocumentStore.register_upload (the backend
application code is absent from the source tree).  Computes a content
fingerprint; if a Document with that fingerprint already exists for this
tenant, returns the existing record without creating a new one or
changing counters; otherwise atomically checks
usage_bytes + size <= quota_bytes, raising QuotaExceededError with
nothing persisted on failure; on success persists the Document in
pending status, enqueues a Job for it (schema defaults: priority 5,
max_attempts 3, unleased, scheduled now) and applies the counter
increment of the update_user_stats trigger, as one atomic unit.
Document row for a freshly accepted upload (pending status, no retries). -/
def new_document (s : DBState) (t : Nat) (fn : String) (fh sz : Nat) : Document :=
  { document_id := s.nextId, ip_hash := t, filename := fn, file_hash := fh,
    original_size := sz, status := DocStatus.pending, retry_count := 0,
    error_message := none, created_at := s.now }

/-- Job row enqueued for a freshly accepted upload, with the schema
defaults (priority 5, max_attempts 3, unleased, scheduled now). -/
def new_job (s : DBState) (t : Nat) : Job :=
  { queue_id := s.nextId + 1, document_id := s.nextId, ip_hash := t,
    priority := default_priority, attempts := 0,
    max_attempts := default_max_attempts, last_error := none,
    scheduled_for := s.now, worker_id := none, lease_expires := none,
    created_at := s.now }

/-- State produced by a successful upload: new pending document, new
unleased job, trigger-incremented counters, fresh-id counter advanced. -/
def upload_state (s : DBState) (t : Nat) (fn : String) (fh sz : Nat) : DBState :=
  { s with documents := new_document s t fn fh sz :: s.documents,
           queue := new_job s t :: s.queue,
           users := s.users.map (fun v => if v.ip_hash == t then
             { v with document_count := v.document_count + 1,
                      storage_used_bytes := v.storage_used_bytes + (sz : Int) }
             else v),
           nextId := s.nextId + 2 }

/-- Modelled from the spec: DocumentStore.register_upload (see the
module header); dedupe first, then the atomic quota check, then the
atomic document + job + counter insertion. -/
def register_upload (s : DBState) (t : Nat) (fn : String) (fh : Nat) (sz : Nat) :
    UploadResult × DBState :=
  match s.users.find? (fun u => u.ip_hash == t) with
  | none => (UploadResult.noTenant, s)
  | some u =>
    match s.documents.find? (fun d => d.ip_hash == t && d.file_hash == fh) with
    | some d => (UploadResult.existing d, s)
    | none =>
      if u.quota_limit_bytes < u.storage_used_bytes + (sz : Int) then
        (UploadResult.quotaExceeded, s)
      else
        (UploadResult.created (new_document s t fn fh sz),
          { s with documents := new_document s t fn fh sz :: s.documents,
                   queue := new_job s t :: s.queue,
                   users := update_user_stats_insert s.users t sz,
                   nextId := s.nextId + 2 })

/-- Modelled from the spec: DocumentStore.get (the backend application
code is absent from the source tree).  Per the schema RLS policy
document_isolation — USING (ip_hash = current_setting(app.current_ip_hash)) —
every row read is filtered by the caller's tenant, so a document of
another tenant and a non-existent id both yield none (NotFoundError). -/
def get_document (s : DBState) (t : Nat) (i : Nat) : Option Document :=
  s.documents.find? (fun d => d.ip_hash == t && d.document_id == i)

/-- Modelled from the spec: DocumentStore.delete (the backend application
code is absent from the source tree).  Removes the Document and any
associated Job and applies the counter decrement of the
update_user_stats trigger, atomically; NotFoundError (false) when the id
does not exist under this tenant. -/
def delete_document (s : DBState) (t : Nat) (i : Nat) : Bool × DBState :=
  match s.documents.find? (fun d => d.ip_hash == t && d.document_id == i) with
  | none => (false, s)
  | some d =>
    (true,
      { s with documents := s.documents.filter (fun x => !(x.document_id == i)),
               queue := s.queue.filter (fun jb => !(jb.document_id == i)),
               users := update_user_stats_delete s.users t d.original_size })

/-- Dispatch order of the processing queue, from the schema index
idx_queue_priority ON processing_queue(priority, created_at) and the
spec: priority ascending, then created_at ascending, ties broken
strictly by submission order (queue ids are generated in submission
order). -/
def dispatch_le (a b : Job) : Bool :=
  decide (a.priority < b.priority ∨
    (a.priority = b.priority ∧ (a.created_at < b.created_at ∨
      (a.created_at = b.created_at ∧ a.queue_id ≤ b.queue_id))))

/-- Eligibility for dispatch: no live lease (worker_id IS NULL) and
scheduled_for <= now. -/
def eligibleB (now : Nat) (j : Job) : Bool :=
  j.worker_id == none && decide (j.scheduled_for ≤ now)

/-- Accumulator step keeping the dispatch-minimal job seen so far. -/
def chooseJob (a : Option Job) (j : Job) : Option Job :=
  match a with
  | none => some j
  | some x => some (if dispatch_le x j then x else j)

/-- Selection phase of lease_next: the dispatch-minimal eligible job. -/
def selectNext (now : Nat) (queue : List Job) : Option Job :=
  (queue.filter (eligibleB now)).foldl chooseJob none

/-- Modelled from the spec: the claim-if-unclaimed conditional update at
the heart of lease_next (the backend application code is absent from the
source tree) — "update only if currently unleased", keyed by job id and
current lease-empty state.  Returns none when the job is absent or
already leased; otherwise stamps worker_id and lease expiry
now + lease_duration. -/
def claim_if_unleased (s : DBState) (qid : Nat) (w : Nat) (dur : Nat) :
    Option (Job × DBState) :=
  match s.queue.find? (fun j => j.queue_id == qid && j.worker_id == none) with
  | none => none
  | some j =>
    let j2 : Job := { j with worker_id := some w, lease_expires := some (s.now + dur) }
    some (j2, { s with queue := s.queue.map (fun k =>
      if k.queue_id == qid && k.worker_id == none then
        { k with worker_id := some w, lease_expires := some (s.now + dur) }
      else k) })

/-- Marks a document as processing (worker picked it up). -/
def mark_processing (s : DBState) (i : Nat) : DBState :=
  { s with documents := s.documents.map (fun d =>
      if d.document_id == i then { d with status := DocStatus.processing } else d) }

/-- Modelled from the spec: JobScheduler.lease_next (the backend
application code is absent from the source tree).  Atomically selects
the highest-ranked eligible job with no live lease and
scheduled_for <= now, stamps it with worker_id and a lease expiry, and
returns it; the claim step is the conditional update claim_if_unleased. -/
def lease_next (s : DBState) (w : Nat) (dur : Nat) : Option Job × DBState :=
  match selectNext s.now s.queue with
  | none => (none, s)
  | some j =>
    match claim_if_unleased s j.queue_id w dur with
    | none => (none, s)
    | some (j2, s2) => (some j2, mark_processing s2 j2.document_id)

/-- Modelled from the spec: JobScheduler.report_success (the backend
application code is absent from the source tree).  Clears the lease,
marks the underlying Document completed and removes the Job. -/
def report_success (s : DBState) (qid : Nat) : DBState :=
  match s.queue.find? (fun j => j.queue_id == qid) with
  | none => s
  | some j =>
    { s with queue := s.queue.filter (fun k => !(k.queue_id == qid)),
             documents := s.documents.map (fun d =>
               if d.document_id == j.document_id then
                 { d with status := DocStatus.completed } else d) }

/-- Modelled from the spec: the monotonically increasing retry backoff
(the spec leaves the numeric schedule open and suggests exponential). -/
def backoff (n : Nat) : Nat := 2 ^ n

/-- Retry branch of report_failure: the lease is cleared, the attempt
count incremented, the next eligibility delayed by the backoff, and the
Document set back to pending. -/
def fail_retry (s : DBState) (qid : Nat) (err : String) (j : Job) : DBState :=
  { s with queue := s.queue.map (fun k =>
             if k.queue_id == qid then
               { k with attempts := j.attempts + 1, worker_id := none,
                        lease_expires := none, last_error := some err,
                        scheduled_for := s.now + backoff (j.attempts + 1) }
             else k),
           documents := s.documents.map (fun d =>
             if d.document_id == j.document_id then
               { d with status := DocStatus.pending, retry_count := j.attempts + 1 }
             else d) }

/-- Terminal branch of report_failure: the Job is removed and the
Document marked terminal error with the last error detail. -/
def fail_terminal (s : DBState) (qid : Nat) (err : String) (j : Job) : DBState :=
  { s with queue := s.queue.filter (fun k => !(k.queue_id == qid)),
           documents := s.documents.map (fun d =>
             if d.document_id == j.document_id then
               { d with status := DocStatus.error, error_message := some err,
                        retry_count := j.attempts + 1 }
             else d) }

/-- Modelled from the spec: JobScheduler.report_failure (the backend
application code is absent from the source tree).  Increments the
attempt count; while attempts remain under the limit, clears the lease
and resets scheduled_for to now + backoff(attempt_count) so the job
re-enters the eligible set (the Document loops back to pending); once
attempts are exhausted, marks the Document terminal error and removes
the Job. -/
def report_failure (s : DBState) (qid : Nat) (err : String) : DBState :=
  match s.queue.find? (fun j => j.queue_id == qid) with
  | none => s
  | some j =>
    if j.attempts + 1 < j.max_attempts then fail_retry s qid err j
    else fail_terminal s qid err j

/-- Lease-expiry test for the reclamation sweep. -/
def leaseExpired (now : Nat) (j : Job) : Bool :=
  match j.lease_expires with
  | some e => decide (e < now)
  | none => false

/-- Modelled from the spec: JobScheduler.reclaim_expired_leases (the
backend application code is absent from the source tree).  Any Job whose
lease expiry has passed without a report is returned to the eligible set
(lease cleared, scheduled now), counting as one failed attempt. -/
def reclaim_expired_leases (s : DBState) : DBState :=
  { s with queue := s.queue.map (fun j =>
      if leaseExpired s.now j then
        { j with worker_id := none, lease_expires := none,
                 attempts := j.attempts + 1, scheduled_for := s.now }
      else j) }

/-- Modelled from the spec: SessionManager.init (the backend application
code is absent from the source tree); row defaults are the schema's:
created_at NOW(), last_accessed NOW(), expires_at NOW() + 24 hours,
is_active true. -/
def init_session (s : DBState) (t : Nat) : Session × DBState :=
  let ss : Session :=
    { session_id := s.nextId, ip_hash := t, created_at := s.now,
      last_accessed := s.now, expires_at := s.now + session_ttl_hours,
      is_active := true }
  (ss, { s with sessions := ss :: s.sessions, nextId := s.nextId + 1 })

/-- Embedded from the schema function cleanup_expired_sessions:
UPDATE user_sessions SET is_active = false
WHERE expires_at < NOW() AND is_active = true; returns ROW_COUNT. -/
def cleanup_expired_sessions (s : DBState) : Nat × DBState :=
  ((s.sessions.filter (fun ss => decide (ss.expires_at < s.now) && ss.is_active)).length,
   { s with sessions := s.sessions.map (fun ss =>
       if decide (ss.expires_at < s.now) && ss.is_active then
         { ss with is_active := false }
       else ss) })

/-- Events of the system: every mutating operation of the modelled core. -/
inductive Op where
  | firstContact (t : Nat)
  | registerUpload (t : Nat) (fn : String) (fh : Nat) (sz : Nat)
  | deleteDoc (t : Nat) (i : Nat)
  | leaseNext (w : Nat) (dur : Nat)
  | reportSuccess (qid : Nat)
  | reportFailure (qid : Nat) (err : String)
  | reclaim
  | tick (k : Nat)
  | initSession (t : Nat)
  | cleanupSessions

/-- State transition function: the durable effect of one operation. -/
def apply (op : Op) (s : DBState) : DBState :=
  match op with
  | Op.firstContact t => first_contact s t
  | Op.registerUpload t fn fh sz => (register_upload s t fn fh sz).2
  | Op.deleteDoc t i => (delete_document s t i).2
  | Op.leaseNext w dur => (lease_next s w dur).2
  | Op.reportSuccess qid => report_success s qid
  | Op.reportFailure qid err => report_failure s qid err
  | Op.reclaim => reclaim_expired_leases s
  | Op.tick k => { s with now := s.now + k }
  | Op.initSession t => (init_session s t).2
  | Op.cleanupSessions => (cleanup_expired_sessions s).2

/-- States reachable from the empty initial state by the operations. -/
inductive Reachable : DBState → Prop where
  | init : Reachable initState
  | step (op : Op) {s : DBState} : Reachable s → Reachable (apply op s)

section Examples

/-- Tenant 1 registered, then one 100-byte document uploaded. -/
def wsF : DBState := apply (Op.firstContact 1) initState

/-- State with tenant 1 and one uploaded document. -/
def wsA : DBState := apply (Op.registerUpload 1 "a" 10 100) wsF

/-- The document row created in wsA. -/
def docA : Document :=
  { document_id := 0, ip_hash := 1, filename := "a", file_hash := 10,
    original_size := 100, status := DocStatus.pending, retry_count := 0,
    error_message := none, created_at := 0 }

/-- The unleased job row of wsA. -/
def jobA0 : Job :=
  { queue_id := 1, document_id := 0, ip_hash := 1, priority := 5, attempts := 0,
    max_attempts := 3, last_error := none, scheduled_for := 0, worker_id := none,
    lease_expires := none, created_at := 0 }

/-- jobA0 stamped by worker 7 with lease expiry 5. -/
def jobA7 : Job := { jobA0 with worker_id := some 7, lease_expires := some 5 }

/-- wsA after worker 7 claimed the job. -/
def wsA7 : DBState := { wsA with queue := [jobA7] }

/-- The registry row of tenant 1 in wsF. -/
def userF : IpUser :=
  { ip_hash := 1, document_count := 0, storage_used_bytes := 0,
    quota_limit_bytes := default_quota_bytes }

/-- The registry row of tenant 1 in wsA. -/
def userA : IpUser :=
  { ip_hash := 1, document_count := 1, storage_used_bytes := 100,
    quota_limit_bytes := default_quota_bytes }

/-- Queue entry used by the dispatch-order demonstration. -/
def demo_job (qid did pr ct : Nat) : Job :=
  { queue_id := qid, document_id := did, ip_hash := 1, priority := pr,
    attempts := 0, max_attempts := 3, last_error := none, scheduled_for := 0,
    worker_id := none, lease_expires := none, created_at := ct }

/-- Pending document used by the dispatch-order demonstration. -/
def demo_doc (i : Nat) : Document :=
  { document_id := i, ip_hash := 1, filename := "f", file_hash := i,
    original_size := 10, status := DocStatus.pending, retry_count := 0,
    error_message := none, created_at := 0 }

/-- Four jobs submitted in order with priorities [5, 1, 5, 3]. -/
def s6 : DBState :=
  { users := [], documents := [demo_doc 11, demo_doc 12, demo_doc 13, demo_doc 14],
    queue := [demo_job 1 11 5 0, demo_job 2 12 1 1,
              demo_job 3 13 5 2, demo_job 4 14 3 3],
    sessions := [], nextId := 20, now := 5 }

/-- First dispatch from s6. -/
def lease1 : Option Job × DBState := lease_next s6 100 10

/-- Second dispatch. -/
def lease2 : Option Job × DBState := lease_next lease1.2 100 10

/-- Third dispatch. -/
def lease3 : Option Job × DBState := lease_next lease2.2 100 10

/-- Fourth dispatch. -/
def lease4 : Option Job × DBState := lease_next lease3.2 100 10

/-- The job the first dispatch hands out: the priority-1 job, stamped. -/
def jstamped : Job :=
  { queue_id := 2, document_id := 12, ip_hash := 1, priority := 1, attempts := 0,
    max_attempts := 3, last_error := none, scheduled_for := 0,
    worker_id := some 100, lease_expires := some 15, created_at := 1 }

/-- A job whose lease (expiry 3) has lapsed at time 5. -/
def jobB : Job :=
  { queue_id := 1, document_id := 0, ip_hash := 1, priority := 5, attempts := 0,
    max_attempts := 3, last_error := none, scheduled_for := 0,
    worker_id := some 100, lease_expires := some 3, created_at := 0 }

/-- State with one orphaned (expired) lease. -/
def s8 : DBState :=
  { users := [], documents := [], queue := [jobB], sessions := [],
    nextId := 10, now := 5 }

/-- A job two failures deep (one more failure exhausts the budget). -/
def jobA2 : Job := { jobA0 with attempts := 2 }

/-- State holding jobA2 and its pending document. -/
def s7t : DBState :=
  { users := [], documents := [docA], queue := [jobA2], sessions := [],
    nextId := 5, now := 0 }

/-- wsA driven through three worker failures: lease, fail (backoff 2),
advance clock, lease, fail (backoff 4), advance clock, lease, final
fail — the document ends in terminal error. -/
def wsErr : DBState :=
  apply (Op.reportFailure 1 "e")
    (apply (Op.leaseNext 100 10)
      (apply (Op.tick 4)
        (apply (Op.reportFailure 1 "e")
          (apply (Op.leaseNext 100 10)
            (apply (Op.tick 2)
              (apply (Op.reportFailure 1 "e")
                (apply (Op.leaseNext 100 10) wsA)))))))

/-- The terminal-error document row of wsErr. -/
def docErr : Document :=
  { docA with status := DocStatus.error, retry_count := 3,
              error_message := some "e" }

/-- An expired active session, an unexpired one, an inactive one. -/
def sessEx : Session :=
  { session_id := 0, ip_hash := 1, created_at := 0, last_accessed := 0,
    expires_at := 24, is_active := true }

/-- State at hour 25 holding the three demonstration sessions. -/
def s10 : DBState :=
  { users := [], documents := [], queue := [],
    sessions := [sessEx, { sessEx with session_id := 1, expires_at := 30 },
                 { sessEx with session_id := 2, is_active := false }],
    nextId := 3, now := 25 }

end Examples

/-- Well-formedness invariant of the durable state: unique primary keys,
fresh-id bound, every queued job points at a live (pending/processing)
document, at most one job per document, every document's owner has a
registry row, and the tenant counters agree with the document table. -/
structure WF (s : DBState) : Prop where
  docs_nodup : s.documents.Pairwise (fun a b => a.document_id ≠ b.document_id)
  docs_lt : ∀ d ∈ s.documents, d.document_id < s.nextId
  queue_nodup : s.queue.Pairwise (fun a b => a.queue_id ≠ b.queue_id)
  queue_doc_nodup : s.queue.Pairwise (fun a b => a.document_id ≠ b.document_id)
  jobs_lt : ∀ j ∈ s.queue, j.queue_id < s.nextId ∧ j.document_id < s.nextId
  job_doc : ∀ j ∈ s.queue, ∃ d ∈ s.documents, d.document_id = j.document_id ∧
      (d.status = DocStatus.pending ∨ d.status = DocStatus.processing)
  doc_user : ∀ d ∈ s.documents, ∃ u ∈ s.users, u.ip_hash = d.ip_hash
  counters : ∀ u ∈ s.users,
      u.document_count = (tenantDocCount u.ip_hash s.documents : Int) ∧
      u.storage_used_bytes = (tenantBytes u.ip_hash s.documents : Int)

section Helpers

/-- Two members of a list that is pairwise distinct on a key and agree on
the key are equal. -/
theorem key_unique {α κ : Type} (key : α → κ) :
    ∀ {l : List α}, l.Pairwise (fun a b => key a ≠ key b) →
    ∀ a ∈ l, ∀ b ∈ l, key a = key b → a = b := by
  intro l
  induction l with
  | nil => intro _ a ha; exact absurd ha (List.not_mem_nil a)
  | cons hd tl ih =>
    intro h a ha b hb hk
    rw [List.pairwise_cons] at h
    obtain ⟨hhd, htl⟩ := h
    rcases List.mem_cons.mp ha with ha1 | ha1
    · rcases List.mem_cons.mp hb with hb1 | hb1
      · rw [ha1, hb1]
      · rw [ha1] at hk ⊢; exact absurd hk (hhd b hb1)
    · rcases List.mem_cons.mp hb with hb1 | hb1
      · rw [hb1] at hk ⊢; exact absurd hk.symm (hhd a ha1)
      · exact ih htl a ha1 b hb1 hk

/-- Mapping a key-preserving function keeps a list pairwise distinct on
that key. -/
theorem pairwise_key_map {α κ : Type} (key : α → κ) (f : α → α)
    (hf : ∀ x, key (f x) = key x) {l : List α}
    (h : l.Pairwise (fun a b => key a ≠ key b)) :
    (l.map f).Pairwise (fun a b => key a ≠ key b) := by
  rw [List.pairwise_map]
  exact h.imp (by intro a b hab; rw [hf, hf]; exact hab)

/-- Per-tenant document count is unchanged by an owner-preserving map. -/
theorem tenantDocCount_map (t : Nat) (f : Document → Document)
    (hf : ∀ x, (f x).ip_hash = x.ip_hash) :
    ∀ l : List Document, tenantDocCount t (l.map f) = tenantDocCount t l := by
  intro l
  induction l with
  | nil => rfl
  | cons d l ih =>
    simp only [tenantDocCount, List.map_cons, List.filter_cons, hf d] at *
    by_cases h : (d.ip_hash == t) = true <;> simp [h, ih]

/-- Per-tenant byte total is unchanged by an owner- and size-preserving
map. -/
theorem tenantBytes_map (t : Nat) (f : Document → Document)
    (hf : ∀ x, (f x).ip_hash = x.ip_hash)
    (hsz : ∀ x, (f x).original_size = x.original_size) :
    ∀ l : List Document, tenantBytes t (l.map f) = tenantBytes t l := by
  intro l
  induction l with
  | nil => rfl
  | cons d l ih =>
    simp only [tenantBytes, List.map_cons, List.filter_cons, hf d] at *
    by_cases h : (d.ip_hash == t) = true <;> simp [h, ih, hsz d]

/-- Removing the unique document with a given id lowers the owner's
document count by exactly one (and no other tenant's count). -/
theorem tenantDocCount_erase (t i : Nat) (d : Document) :
    ∀ l : List Document, l.Pairwise (fun a b => a.document_id ≠ b.document_id) →
    d ∈ l → d.document_id = i →
    tenantDocCount t l =
      tenantDocCount t (l.filter (fun x => !(x.document_id == i))) +
        (if d.ip_hash == t then 1 else 0) := by
  intro l
  induction l with
  | nil => intro _ hd; exact absurd hd (List.not_mem_nil d)
  | cons a l ih =>
    intro hpw hmem hi
    rw [List.pairwise_cons] at hpw
    obtain ⟨hpw1, hpw2⟩ := hpw
    rcases List.mem_cons.mp hmem with rfl | hmem
    · have hkeep : l.filter (fun x => !(x.document_id == i)) = l := by
        rw [List.filter_eq_self]
        intro b hb
        have := hpw1 b hb
        simp only [Bool.not_eq_true', beq_eq_false_iff_ne, ne_eq]
        omega
      simp only [tenantDocCount, List.filter_cons, hi, beq_self_eq_true,
        Bool.not_true, hkeep]
      by_cases h : (d.ip_hash == t) = true
      · simp [h, tenantDocCount]
        try omega
      · simp [h, tenantDocCount]
    · have hne : ¬ a.document_id = i := by
        have := hpw1 d hmem; omega
      have := ih hpw2 hmem hi
      simp only [tenantDocCount, List.filter_cons] at *
      by_cases ha : (a.ip_hash == t) = true
      · simp [ha, hne, this, tenantDocCount]
        try omega
      · simp [ha, hne, this, tenantDocCount]

/-- Removing the unique document with a given id lowers the owner's byte
total by exactly its size (and no other tenant's total). -/
theorem tenantBytes_erase (t i : Nat) (d : Document) :
    ∀ l : List Document, l.Pairwise (fun a b => a.document_id ≠ b.document_id) →
    d ∈ l → d.document_id = i →
    tenantBytes t l =
      tenantBytes t (l.filter (fun x => !(x.document_id == i))) +
        (if d.ip_hash == t then d.original_size else 0) := by
  intro l
  induction l with
  | nil => intro _ hd; exact absurd hd (List.not_mem_nil d)
  | cons a l ih =>
    intro hpw hmem hi
    rw [List.pairwise_cons] at hpw
    obtain ⟨hpw1, hpw2⟩ := hpw
    rcases List.mem_cons.mp hmem with rfl | hmem
    · have hkeep : l.filter (fun x => !(x.document_id == i)) = l := by
        rw [List.filter_eq_self]
        intro b hb
        have := hpw1 b hb
        simp only [Bool.not_eq_true', beq_eq_false_iff_ne, ne_eq]
        omega
      simp only [tenantBytes, List.filter_cons, hi, beq_self_eq_true,
        Bool.not_true, hkeep]
      by_cases h : (d.ip_hash == t) = true
      · simp [h, tenantBytes]
        try omega
      · simp [h, tenantBytes]
    · have hne : ¬ a.document_id = i := by
        have := hpw1 d hmem; omega
      have := ih hpw2 hmem hi
      simp only [tenantBytes, List.filter_cons] at *
      by_cases ha : (a.ip_hash == t) = true
      · simp [ha, hne, this, tenantBytes]
        try omega
      · simp [ha, hne, this, tenantBytes]

/-- Transfer principle for the job/document linkage invariant. -/
theorem job_doc_transfer {queue queue2 : List Job} {docs docs2 : List Document}
    (hq : ∀ j ∈ queue2, ∃ x ∈ queue, x.document_id = j.document_id)
    (hd : ∀ d ∈ docs, (d.status = DocStatus.pending ∨ d.status = DocStatus.processing) →
        ∃ d2 ∈ docs2, d2.document_id = d.document_id ∧
          (d2.status = DocStatus.pending ∨ d2.status = DocStatus.processing))
    (h : ∀ j ∈ queue, ∃ d ∈ docs, d.document_id = j.document_id ∧
        (d.status = DocStatus.pending ∨ d.status = DocStatus.processing)) :
    ∀ j ∈ queue2, ∃ d ∈ docs2, d.document_id = j.document_id ∧
        (d.status = DocStatus.pending ∨ d.status = DocStatus.processing) := by
  intro j hj
  rcases hq j hj with ⟨x, hx, hxid⟩
  rcases h x hx with ⟨d, hdm, hid, hst⟩
  rcases hd d hdm hst with ⟨d2, hd2m, hd2id, hd2st⟩
  exact ⟨d2, hd2m, by rw [hd2id, hid, hxid], hd2st⟩

/-- Id bounds survive an id-preserving map of the queue. -/
theorem jobs_lt_map {n : Nat} (F : Job → Job)
    (hq : ∀ x, (F x).queue_id = x.queue_id)
    (hd : ∀ x, (F x).document_id = x.document_id) {l : List Job}
    (h : ∀ j ∈ l, j.queue_id < n ∧ j.document_id < n) :
    ∀ j ∈ l.map F, j.queue_id < n ∧ j.document_id < n := by
  intro j hj
  rcases List.mem_map.mp hj with ⟨x, hx, rfl⟩
  rw [hq, hd]; exact h x hx

end Helpers

section Preservation

/-- Advancing the clock preserves well-formedness. -/
theorem wf_tick {s : DBState} (k : Nat) (h : WF s) :
    WF { s with now := s.now + k } :=
  ⟨h.docs_nodup, h.docs_lt, h.queue_nodup, h.queue_doc_nodup, h.jobs_lt,
   h.job_doc, h.doc_user, h.counters⟩

/-- Issuing a session preserves well-formedness. -/
theorem wf_init_session {s : DBState} (t : Nat) (h : WF s) :
    WF (init_session s t).2 := by
  refine ⟨h.docs_nodup, ?_, h.queue_nodup, h.queue_doc_nodup, ?_, h.job_doc,
    h.doc_user, h.counters⟩
  · intro d hd
    have := h.docs_lt d hd
    simp only [init_session]
    omega
  · intro j hj
    have := h.jobs_lt j hj
    simp only [init_session]
    omega

/-- The session expiry sweep preserves well-formedness. -/
theorem wf_cleanup {s : DBState} (h : WF s) :
    WF (cleanup_expired_sessions s).2 :=
  ⟨h.docs_nodup, h.docs_lt, h.queue_nodup, h.queue_doc_nodup, h.jobs_lt,
   h.job_doc, h.doc_user, h.counters⟩

/-- First contact (tenant row creation) preserves well-formedness. -/
theorem wf_first_contact {s : DBState} (t : Nat) (h : WF s) :
    WF (first_contact s t) := by
  by_cases hany : s.users.any (fun u => u.ip_hash == t) = true
  · simpa [first_contact, hany] using h
  · have hnone : ∀ d ∈ s.documents, ¬ d.ip_hash = t := by
      intro d hd hdt
      rcases h.doc_user d hd with ⟨u, hu, hut⟩
      exact hany (List.any_eq_true.mpr ⟨u, hu, by simp [hut, hdt]⟩)
    have hfc : first_contact s t =
        { s with users := { ip_hash := t, document_count := 0,
                            storage_used_bytes := 0,
                            quota_limit_bytes := default_quota_bytes } :: s.users } := by
      simp [first_contact, hany]
    rw [hfc]
    refine ⟨h.docs_nodup, h.docs_lt, h.queue_nodup, h.queue_doc_nodup,
      h.jobs_lt, h.job_doc, ?_, ?_⟩
    · intro d hd
      rcases h.doc_user d hd with ⟨u, hu, hut⟩
      exact ⟨u, List.mem_cons_of_mem _ hu, hut⟩
    · intro u hu
      rcases List.mem_cons.mp hu with rfl | hu
      · have hfil : s.documents.filter (fun d => d.ip_hash == t) = [] := by
          rw [List.filter_eq_nil_iff]
          intro d hd
          simpa using hnone d hd
        constructor <;> simp [tenantDocCount, tenantBytes, hfil]
      · exact h.counters u hu

/-- Lease reclamation preserves well-formedness. -/
theorem wf_reclaim {s : DBState} (h : WF s) :
    WF (reclaim_expired_leases s) := by
  have hq : ∀ j : Job, (if leaseExpired s.now j then
      { j with worker_id := none, lease_expires := none,
               attempts := j.attempts + 1, scheduled_for := s.now }
      else j).queue_id = j.queue_id := by
    intro j; split <;> rfl
  have hd : ∀ j : Job, (if leaseExpired s.now j then
      { j with worker_id := none, lease_expires := none,
               attempts := j.attempts + 1, scheduled_for := s.now }
      else j).document_id = j.document_id := by
    intro j; split <;> rfl
  refine ⟨h.docs_nodup, h.docs_lt, ?_, ?_, ?_, ?_, h.doc_user, h.counters⟩
  · exact pairwise_key_map Job.queue_id _ hq h.queue_nodup
  · exact pairwise_key_map Job.document_id _ hd h.queue_doc_nodup
  · exact jobs_lt_map _ hq hd h.jobs_lt
  · refine job_doc_transfer ?_ ?_ h.job_doc
    · intro j hj
      rcases List.mem_map.mp hj with ⟨x, hx, rfl⟩
      exact ⟨x, hx, (hd x).symm⟩
    · intro d hdm hst
      exact ⟨d, hdm, rfl, hst⟩

/-- The conditional lease claim preserves well-formedness. -/
theorem wf_claim {s : DBState} {qid w dur : Nat} {j2 : Job} {s2 : DBState}
    (h : WF s) (heq : claim_if_unleased s qid w dur = some (j2, s2)) : WF s2 := by
  unfold claim_if_unleased at heq
  cases hf : s.queue.find? (fun j => j.queue_id == qid && j.worker_id == none) with
  | none => rw [hf] at heq; exact absurd heq (by simp)
  | some j0 =>
    rw [hf] at heq
    simp only [Option.some.injEq, Prod.mk.injEq] at heq
    obtain ⟨hj2, hs2⟩ := heq
    rw [← hs2]
    have hq : ∀ k : Job, (if k.queue_id == qid && k.worker_id == none then
        { k with worker_id := some w, lease_expires := some (s.now + dur) }
        else k).queue_id = k.queue_id := by
      intro k; split <;> rfl
    have hd : ∀ k : Job, (if k.queue_id == qid && k.worker_id == none then
        { k with worker_id := some w, lease_expires := some (s.now + dur) }
        else k).document_id = k.document_id := by
      intro k; split <;> rfl
    refine ⟨h.docs_nodup, h.docs_lt, ?_, ?_, ?_, ?_, h.doc_user, h.counters⟩
    · exact pairwise_key_map Job.queue_id _ hq h.queue_nodup
    · exact pairwise_key_map Job.document_id _ hd h.queue_doc_nodup
    · exact jobs_lt_map _ hq hd h.jobs_lt
    · refine job_doc_transfer ?_ ?_ h.job_doc
      · intro j hj
        rcases List.mem_map.mp hj with ⟨x, hx, rfl⟩
        exact ⟨x, hx, (hd x).symm⟩
      · intro d hdm hst
        exact ⟨d, hdm, rfl, hst⟩

/-- Marking a document as processing preserves well-formedness. -/
theorem wf_mark {s : DBState} (i : Nat) (h : WF s) : WF (mark_processing s i) := by
  have hid : ∀ d : Document, (if d.document_id == i then
      { d with status := DocStatus.processing } else d).document_id = d.document_id := by
    intro d; split <;> rfl
  have hip : ∀ d : Document, (if d.document_id == i then
      { d with status := DocStatus.processing } else d).ip_hash = d.ip_hash := by
    intro d; split <;> rfl
  have hsz : ∀ d : Document, (if d.document_id == i then
      { d with status := DocStatus.processing } else d).original_size = d.original_size := by
    intro d; split <;> rfl
  refine ⟨?_, ?_, h.queue_nodup, h.queue_doc_nodup, h.jobs_lt, ?_, ?_, ?_⟩
  · exact pairwise_key_map Document.document_id _ hid h.docs_nodup
  · intro d hd
    rcases List.mem_map.mp hd with ⟨x, hx, rfl⟩
    rw [hid]; exact h.docs_lt x hx
  · refine job_doc_transfer (fun j hj => ⟨j, hj, rfl⟩) ?_ h.job_doc
    · intro d hdm hst
      refine ⟨_, List.mem_map_of_mem _ hdm, hid d, ?_⟩
      by_cases hc : (d.document_id == i) = true
      · simp [hc]
      · rw [if_neg hc]
        exact hst
  · intro d hd
    rcases List.mem_map.mp hd with ⟨x, hx, rfl⟩
    rcases h.doc_user x hx with ⟨u, hu, hut⟩
    exact ⟨u, hu, by rw [hip]; exact hut⟩
  · intro u hu
    have hcnt := h.counters u hu
    exact ⟨hcnt.1.trans (congrArg (fun n : Nat => (n : Int))
        (tenantDocCount_map u.ip_hash _ hip s.documents).symm),
      hcnt.2.trans (congrArg (fun n : Nat => (n : Int))
        (tenantBytes_map u.ip_hash _ hip hsz s.documents).symm)⟩

/-- Case analysis on the outcome of lease_next. -/
theorem lease_next_state (s : DBState) (w dur : Nat) :
    (lease_next s w dur).2 = s ∨
    ∃ j p, selectNext s.now s.queue = some j ∧
      claim_if_unleased s j.queue_id w dur = some p ∧
      (lease_next s w dur).2 = mark_processing p.2 p.1.document_id := by
  cases hsel : selectNext s.now s.queue with
  | none => left; simp [lease_next, hsel]
  | some j =>
    cases hcl : claim_if_unleased s j.queue_id w dur with
    | none => left; simp [lease_next, hsel, hcl]
    | some p =>
      obtain ⟨j2, s2⟩ := p
      right
      exact ⟨j, (j2, s2), rfl, hcl, by simp [lease_next, hsel, hcl]⟩

/-- Leasing a job preserves well-formedness. -/
theorem wf_lease_next {s : DBState} (w dur : Nat) (h : WF s) :
    WF (lease_next s w dur).2 := by
  rcases lease_next_state s w dur with heq | ⟨j, p, hsel, hcl, heq⟩
  · rw [heq]; exact h
  · rw [heq]
    exact wf_mark p.1.document_id (wf_claim h (by rw [hcl]))

/-- Reporting success preserves well-formedness. -/
theorem wf_report_success {s : DBState} (qid : Nat) (h : WF s) :
    WF (report_success s qid) := by
  unfold report_success
  cases hf : s.queue.find? (fun j => j.queue_id == qid) with
  | none => exact h
  | some j0 =>
    have hj0mem : j0 ∈ s.queue := List.mem_of_find?_eq_some hf
    have hj0q : j0.queue_id = qid := by
      have := List.find?_some hf; simpa using this
    have hid : ∀ d : Document, (if d.document_id == j0.document_id then
        { d with status := DocStatus.completed } else d).document_id = d.document_id := by
      intro d; split <;> rfl
    have hip : ∀ d : Document, (if d.document_id == j0.document_id then
        { d with status := DocStatus.completed } else d).ip_hash = d.ip_hash := by
      intro d; split <;> rfl
    have hsz : ∀ d : Document, (if d.document_id == j0.document_id then
        { d with status := DocStatus.completed } else d).original_size = d.original_size := by
      intro d; split <;> rfl
    refine ⟨?_, ?_, ?_, ?_, ?_, ?_, ?_, ?_⟩
    · exact pairwise_key_map Document.document_id _ hid h.docs_nodup
    · intro d hd
      rcases List.mem_map.mp hd with ⟨x, hx, rfl⟩
      rw [hid]; exact h.docs_lt x hx
    · exact h.queue_nodup.filter _
    · exact h.queue_doc_nodup.filter _
    · intro k hk
      exact h.jobs_lt k (List.mem_of_mem_filter hk)
    · intro k hk
      have hk2 := List.mem_filter.mp hk
      have hkq : ¬ k.queue_id = qid := by
        have := hk2.2; simpa using this
      rcases h.job_doc k hk2.1 with ⟨d, hdm, hdid, hst⟩
      have hne : ¬ d.document_id = j0.document_id := by
        intro hcontra
        have hkd : k.document_id = j0.document_id := by rw [← hdid, hcontra]
        have : k = j0 := key_unique Job.document_id h.queue_doc_nodup k hk2.1 j0 hj0mem hkd
        rw [this] at hkq
        exact hkq hj0q
      refine ⟨_, List.mem_map_of_mem _ hdm, ?_, ?_⟩
      · rw [hid]; exact hdid
      · have hcond : ¬ ((d.document_id == j0.document_id) = true) := by
          simpa using hne
        rw [if_neg hcond]
        exact hst
    · intro d hd
      rcases List.mem_map.mp hd with ⟨x, hx, rfl⟩
      rcases h.doc_user x hx with ⟨u, hu, hut⟩
      exact ⟨u, hu, by rw [hip]; exact hut⟩
    · intro u hu
      have hcnt := h.counters u hu
      exact ⟨hcnt.1.trans (congrArg (fun n : Nat => (n : Int))
          (tenantDocCount_map u.ip_hash _ hip s.documents).symm),
        hcnt.2.trans (congrArg (fun n : Nat => (n : Int))
          (tenantBytes_map u.ip_hash _ hip hsz s.documents).symm)⟩

/-- Reporting failure preserves well-formedness, in both the retry and
the terminal branch. -/
theorem wf_fail_retry {s : DBState} (qid : Nat) (err : String) (j0 : Job)
    (h : WF s) : WF (fail_retry s qid err j0) := by
  unfold fail_retry
  have hqq : ∀ k : Job, (if k.queue_id == qid then
      { k with attempts := j0.attempts + 1, worker_id := none,
               lease_expires := none, last_error := some err,
               scheduled_for := s.now + backoff (j0.attempts + 1) }
      else k).queue_id = k.queue_id := by
    intro k; split <;> rfl
  have hqd : ∀ k : Job, (if k.queue_id == qid then
      { k with attempts := j0.attempts + 1, worker_id := none,
               lease_expires := none, last_error := some err,
               scheduled_for := s.now + backoff (j0.attempts + 1) }
      else k).document_id = k.document_id := by
    intro k; split <;> rfl
  have hid : ∀ d : Document, (if d.document_id == j0.document_id then
      { d with status := DocStatus.pending, retry_count := j0.attempts + 1 }
      else d).document_id = d.document_id := by
    intro d; split <;> rfl
  have hip : ∀ d : Document, (if d.document_id == j0.document_id then
      { d with status := DocStatus.pending, retry_count := j0.attempts + 1 }
      else d).ip_hash = d.ip_hash := by
    intro d; split <;> rfl
  have hsz : ∀ d : Document, (if d.document_id == j0.document_id then
      { d with status := DocStatus.pending, retry_count := j0.attempts + 1 }
      else d).original_size = d.original_size := by
    intro d; split <;> rfl
  refine ⟨?_, ?_, ?_, ?_, ?_, ?_, ?_, ?_⟩
  · exact pairwise_key_map Document.document_id _ hid h.docs_nodup
  · intro d hd
    rcases List.mem_map.mp hd with ⟨x, hx, rfl⟩
    rw [hid]; exact h.docs_lt x hx
  · exact pairwise_key_map Job.queue_id _ hqq h.queue_nodup
  · exact pairwise_key_map Job.document_id _ hqd h.queue_doc_nodup
  · exact jobs_lt_map _ hqq hqd h.jobs_lt
  · refine job_doc_transfer ?_ ?_ h.job_doc
    · intro j hj
      rcases List.mem_map.mp hj with ⟨x, hx, rfl⟩
      exact ⟨x, hx, (hqd x).symm⟩
    · intro d hdm hst
      refine ⟨_, List.mem_map_of_mem _ hdm, hid d, ?_⟩
      by_cases hc : (d.document_id == j0.document_id) = true
      · simp [hc]
      · rw [if_neg hc]
        exact hst
  · intro d hd
    rcases List.mem_map.mp hd with ⟨x, hx, rfl⟩
    rcases h.doc_user x hx with ⟨u, hu, hut⟩
    exact ⟨u, hu, by rw [hip]; exact hut⟩
  · intro u hu
    have hcnt := h.counters u hu
    exact ⟨hcnt.1.trans (congrArg (fun n : Nat => (n : Int))
        (tenantDocCount_map u.ip_hash _ hip s.documents).symm),
      hcnt.2.trans (congrArg (fun n : Nat => (n : Int))
        (tenantBytes_map u.ip_hash _ hip hsz s.documents).symm)⟩

/-- Terminal failure preserves well-formedness, given that the removed
job was the unique job of its document. -/
theorem wf_fail_terminal {s : DBState} (qid : Nat) (err : String) (j0 : Job)
    (h : WF s) (hj0mem : j0 ∈ s.queue) (hj0q : j0.queue_id = qid) :
    WF (fail_terminal s qid err j0) := by
  unfold fail_terminal
  have hid : ∀ d : Document, (if d.document_id == j0.document_id then
      { d with status := DocStatus.error, error_message := some err,
               retry_count := j0.attempts + 1 }
      else d).document_id = d.document_id := by
    intro d; split <;> rfl
  have hip : ∀ d : Document, (if d.document_id == j0.document_id then
      { d with status := DocStatus.error, error_message := some err,
               retry_count := j0.attempts + 1 }
      else d).ip_hash = d.ip_hash := by
    intro d; split <;> rfl
  have hsz : ∀ d : Document, (if d.document_id == j0.document_id then
      { d with status := DocStatus.error, error_message := some err,
               retry_count := j0.attempts + 1 }
      else d).original_size = d.original_size := by
    intro d; split <;> rfl
  refine ⟨?_, ?_, ?_, ?_, ?_, ?_, ?_, ?_⟩
  · exact pairwise_key_map Document.document_id _ hid h.docs_nodup
  · intro d hd
    rcases List.mem_map.mp hd with ⟨x, hx, rfl⟩
    rw [hid]; exact h.docs_lt x hx
  · exact h.queue_nodup.filter _
  · exact h.queue_doc_nodup.filter _
  · intro k hk
    exact h.jobs_lt k (List.mem_of_mem_filter hk)
  · intro k hk
    have hk2 := List.mem_filter.mp hk
    have hkq : ¬ k.queue_id = qid := by
      have := hk2.2; simpa using this
    rcases h.job_doc k hk2.1 with ⟨d, hdm, hdid, hst⟩
    have hne : ¬ d.document_id = j0.document_id := by
      intro hcontra
      have hkd : k.document_id = j0.document_id := by rw [← hdid, hcontra]
      have : k = j0 := key_unique Job.document_id h.queue_doc_nodup k hk2.1 j0 hj0mem hkd
      rw [this] at hkq
      exact hkq hj0q
    refine ⟨_, List.mem_map_of_mem _ hdm, ?_, ?_⟩
    · rw [hid]; exact hdid
    · have hcond : ¬ ((d.document_id == j0.document_id) = true) := by
        simpa using hne
      rw [if_neg hcond]
      exact hst
  · intro d hd
    rcases List.mem_map.mp hd with ⟨x, hx, rfl⟩
    rcases h.doc_user x hx with ⟨u, hu, hut⟩
    exact ⟨u, hu, by rw [hip]; exact hut⟩
  · intro u hu
    have hcnt := h.counters u hu
    exact ⟨hcnt.1.trans (congrArg (fun n : Nat => (n : Int))
        (tenantDocCount_map u.ip_hash _ hip s.documents).symm),
      hcnt.2.trans (congrArg (fun n : Nat => (n : Int))
        (tenantBytes_map u.ip_hash _ hip hsz s.documents).symm)⟩

/-- Reporting failure preserves well-formedness, in both branches. -/
theorem wf_report_failure {s : DBState} (qid : Nat) (err : String) (h : WF s) :
    WF (report_failure s qid err) := by
  cases hf : s.queue.find? (fun j => j.queue_id == qid) with
  | none =>
    have heq : report_failure s qid err = s := by simp [report_failure, hf]
    rw [heq]; exact h
  | some j0 =>
    have hj0mem : j0 ∈ s.queue := List.mem_of_find?_eq_some hf
    have hj0q : j0.queue_id = qid := by
      have := List.find?_some hf; simpa using this
    by_cases hatt : j0.attempts + 1 < j0.max_attempts
    · have heq : report_failure s qid err = fail_retry s qid err j0 := by
        simp [report_failure, hf, hatt]
      rw [heq]; exact wf_fail_retry qid err j0 h
    · have heq : report_failure s qid err = fail_terminal s qid err j0 := by
        simp [report_failure, hf, hatt]
      rw [heq]; exact wf_fail_terminal qid err j0 h hj0mem hj0q

/-- Counting after consing a document of the same tenant. -/
theorem tenantDocCount_cons_eq {d : Document} {t : Nat} (hd : d.ip_hash = t)
    (l : List Document) : tenantDocCount t (d :: l) = tenantDocCount t l + 1 := by
  simp [tenantDocCount, List.filter_cons, hd]

/-- Counting after consing a document of another tenant. -/
theorem tenantDocCount_cons_ne {d : Document} {t : Nat} (hd : ¬ d.ip_hash = t)
    (l : List Document) : tenantDocCount t (d :: l) = tenantDocCount t l := by
  simp [tenantDocCount, List.filter_cons, hd]

/-- Byte total after consing a document of the same tenant. -/
theorem tenantBytes_cons_eq {d : Document} {t : Nat} (hd : d.ip_hash = t)
    (l : List Document) :
    tenantBytes t (d :: l) = d.original_size + tenantBytes t l := by
  simp [tenantBytes, List.filter_cons, hd]

/-- Byte total after consing a document of another tenant. -/
theorem tenantBytes_cons_ne {d : Document} {t : Nat} (hd : ¬ d.ip_hash = t)
    (l : List Document) : tenantBytes t (d :: l) = tenantBytes t l := by
  simp [tenantBytes, List.filter_cons, hd]

/-- Deleting a document preserves well-formedness: the trigger decrement
keeps the counters in step with the removed row. -/
theorem wf_delete_document {s : DBState} (t i : Nat) (h : WF s) :
    WF (delete_document s t i).2 := by
  cases hf : s.documents.find? (fun d => d.ip_hash == t && d.document_id == i) with
  | none =>
    have heq : (delete_document s t i).2 = s := by simp [delete_document, hf]
    rw [heq]; exact h
  | some d0 =>
    have hd0mem : d0 ∈ s.documents := List.mem_of_find?_eq_some hf
    have hd0p := List.find?_some hf
    have hd0t : d0.ip_hash = t := by
      simp only [Bool.and_eq_true, beq_iff_eq] at hd0p; exact hd0p.1
    have hd0i : d0.document_id = i := by
      simp only [Bool.and_eq_true, beq_iff_eq] at hd0p; exact hd0p.2
    have heq : (delete_document s t i).2 =
        { s with documents := s.documents.filter (fun x => !(x.document_id == i)),
                 queue := s.queue.filter (fun jb => !(jb.document_id == i)),
                 users := update_user_stats_delete s.users t d0.original_size } := by
      simp [delete_document, hf]
    rw [heq]
    have hipres : ∀ v : IpUser, (if v.ip_hash == t then
        { v with document_count := v.document_count - 1,
                 storage_used_bytes := v.storage_used_bytes - (d0.original_size : Int) }
        else v).ip_hash = v.ip_hash := by
      intro v; split <;> rfl
    refine ⟨h.docs_nodup.filter _, ?_, h.queue_nodup.filter _,
      h.queue_doc_nodup.filter _, ?_, ?_, ?_, ?_⟩
    · intro d hd
      exact h.docs_lt d (List.mem_of_mem_filter hd)
    · intro j hj
      exact h.jobs_lt j (List.mem_of_mem_filter hj)
    · intro k hk
      have hk2 := List.mem_filter.mp hk
      have hki : ¬ k.document_id = i := by
        have := hk2.2; simpa using this
      rcases h.job_doc k hk2.1 with ⟨d, hdm, hdid, hst⟩
      refine ⟨d, List.mem_filter.mpr ⟨hdm, ?_⟩, hdid, hst⟩
      simp only [Bool.not_eq_true', beq_eq_false_iff_ne, ne_eq]
      rw [hdid]; exact hki
    · intro d hd
      rcases h.doc_user d (List.mem_of_mem_filter hd) with ⟨u, hu, hut⟩
      exact ⟨_, List.mem_map_of_mem _ hu, by rw [hipres]; exact hut⟩
    · intro u2 hu2
      rcases List.mem_map.mp hu2 with ⟨u0, hu0, rfl⟩
      have hcnt := h.counters u0 hu0
      have hcE := tenantDocCount_erase u0.ip_hash i d0 s.documents h.docs_nodup hd0mem hd0i
      have hbE := tenantBytes_erase u0.ip_hash i d0 s.documents h.docs_nodup hd0mem hd0i
      by_cases hcase : (u0.ip_hash == t) = true
      · have hipeq : u0.ip_hash = t := by simpa using hcase
        have hd0u : (d0.ip_hash == u0.ip_hash) = true := by simp [hd0t, hipeq]
        rw [if_pos hcase]
        rw [if_pos hd0u] at hcE hbE
        constructor
        · show u0.document_count - 1 = ((tenantDocCount u0.ip_hash
            (s.documents.filter (fun x => !(x.document_id == i)))) : Int)
          have h1 := hcnt.1
          omega
        · show u0.storage_used_bytes - (d0.original_size : Int) =
            ((tenantBytes u0.ip_hash
              (s.documents.filter (fun x => !(x.document_id == i)))) : Int)
          have h2 := hcnt.2
          omega
      · have hipne : ¬ u0.ip_hash = t := by simpa using hcase
        have hd0u : ¬ ((d0.ip_hash == u0.ip_hash) = true) := by
          simp [hd0t]
          omega
        rw [if_neg hcase]
        rw [if_neg hd0u] at hcE hbE
        constructor
        · show u0.document_count = ((tenantDocCount u0.ip_hash
            (s.documents.filter (fun x => !(x.document_id == i)))) : Int)
          have h1 := hcnt.1
          omega
        · show u0.storage_used_bytes = ((tenantBytes u0.ip_hash
            (s.documents.filter (fun x => !(x.document_id == i)))) : Int)
          have h2 := hcnt.2
          omega

/-- Accepting an upload preserves well-formedness: fresh ids keep the
key invariants, the new job points at the new pending document, and the
trigger increment keeps the counters in step. -/
theorem wf_register_upload {s : DBState} (t : Nat) (fn : String) (fh sz : Nat)
    (h : WF s) : WF (register_upload s t fn fh sz).2 := by
  cases hfu : s.users.find? (fun u => u.ip_hash == t) with
  | none =>
    have heq : (register_upload s t fn fh sz).2 = s := by simp [register_upload, hfu]
    rw [heq]; exact h
  | some u0 =>
    cases hfd : s.documents.find? (fun d => d.ip_hash == t && d.file_hash == fh) with
    | some dup =>
      have heq : (register_upload s t fn fh sz).2 = s := by
        simp [register_upload, hfu, hfd]
      rw [heq]; exact h
    | none =>
      by_cases hq : u0.quota_limit_bytes < u0.storage_used_bytes + (sz : Int)
      · have heq : (register_upload s t fn fh sz).2 = s := by
          simp [register_upload, hfu, hfd, hq]
        rw [heq]; exact h
      · have hu0mem : u0 ∈ s.users := List.mem_of_find?_eq_some hfu
        have hu0t : u0.ip_hash = t := by
          have := List.find?_some hfu; simpa using this
        have hany : s.users.any (fun u => u.ip_hash == t) = true :=
          List.any_eq_true.mpr ⟨u0, hu0mem, by simp [hu0t]⟩
        have heq : (register_upload s t fn fh sz).2 =
            { s with documents := new_document s t fn fh sz :: s.documents,
                     queue := new_job s t :: s.queue,
                     users := s.users.map (fun u => if u.ip_hash == t then
                       { u with document_count := u.document_count + 1,
                                storage_used_bytes := u.storage_used_bytes + (sz : Int) }
                       else u),
                     nextId := s.nextId + 2 } := by
          simp [register_upload, hfu, hfd, hq, update_user_stats_insert, hany]
        rw [heq]
        have hipres : ∀ v : IpUser, (if v.ip_hash == t then
            { v with document_count := v.document_count + 1,
                     storage_used_bytes := v.storage_used_bytes + (sz : Int) }
            else v).ip_hash = v.ip_hash := by
          intro v; split <;> rfl
        refine ⟨?_, ?_, ?_, ?_, ?_, ?_, ?_, ?_⟩
        · refine List.pairwise_cons.mpr ⟨?_, h.docs_nodup⟩
          intro x hx
          show s.nextId ≠ x.document_id
          have := h.docs_lt x hx; omega
        · intro d hd
          rcases List.mem_cons.mp hd with rfl | hd2
          · show s.nextId < s.nextId + 2; omega
          · have := h.docs_lt d hd2
            show d.document_id < s.nextId + 2; omega
        · refine List.pairwise_cons.mpr ⟨?_, h.queue_nodup⟩
          intro k hk
          show s.nextId + 1 ≠ k.queue_id
          have := h.jobs_lt k hk; omega
        · refine List.pairwise_cons.mpr ⟨?_, h.queue_doc_nodup⟩
          intro k hk
          show s.nextId ≠ k.document_id
          have := h.jobs_lt k hk; omega
        · intro j hj
          rcases List.mem_cons.mp hj with rfl | hj2
          · constructor
            · show s.nextId + 1 < s.nextId + 2; omega
            · show s.nextId < s.nextId + 2; omega
          · have := h.jobs_lt j hj2
            constructor
            · show j.queue_id < s.nextId + 2; omega
            · show j.document_id < s.nextId + 2; omega
        · intro j hj
          rcases List.mem_cons.mp hj with rfl | hj2
          · exact ⟨new_document s t fn fh sz, List.mem_cons_self _ _, rfl, Or.inl rfl⟩
          · rcases h.job_doc j hj2 with ⟨d, hdm, hid2, hst⟩
            exact ⟨d, List.mem_cons_of_mem _ hdm, hid2, hst⟩
        · intro d hd
          rcases List.mem_cons.mp hd with rfl | hd2
          · exact ⟨_, List.mem_map_of_mem _ hu0mem, by rw [hipres u0]; exact hu0t⟩
          · rcases h.doc_user d hd2 with ⟨u, hu, hut⟩
            exact ⟨_, List.mem_map_of_mem _ hu, by rw [hipres u]; exact hut⟩
        · intro v2 hv2
          rcases List.mem_map.mp hv2 with ⟨v0, hv0, rfl⟩
          have hcnt := h.counters v0 hv0
          by_cases hc : (v0.ip_hash == t) = true
          · have hvt : v0.ip_hash = t := by simpa using hc
            have hdip : (new_document s t fn fh sz).ip_hash = v0.ip_hash := by
              rw [hvt]; rfl
            rw [if_pos hc]
            constructor
            · show v0.document_count + 1 =
                ((tenantDocCount v0.ip_hash
                  (new_document s t fn fh sz :: s.documents)) : Int)
              rw [tenantDocCount_cons_eq hdip]
              have h1 := hcnt.1
              push_cast
              omega
            · show v0.storage_used_bytes + (sz : Int) =
                ((tenantBytes v0.ip_hash
                  (new_document s t fn fh sz :: s.documents)) : Int)
              rw [tenantBytes_cons_eq hdip]
              have hsz2 : (new_document s t fn fh sz).original_size = sz := rfl
              rw [hsz2]
              have h2 := hcnt.2
              push_cast
              omega
          · have hvt : ¬ v0.ip_hash = t := by simpa using hc
            have hdip : ¬ (new_document s t fn fh sz).ip_hash = v0.ip_hash := by
              show ¬ t = v0.ip_hash
              omega
            rw [if_neg hc]
            constructor
            · show v0.document_count =
                ((tenantDocCount v0.ip_hash
                  (new_document s t fn fh sz :: s.documents)) : Int)
              rw [tenantDocCount_cons_ne hdip]
              exact hcnt.1
            · show v0.storage_used_bytes =
                ((tenantBytes v0.ip_hash
                  (new_document s t fn fh sz :: s.documents)) : Int)
              rw [tenantBytes_cons_ne hdip]
              exact hcnt.2

/-- Every operation preserves well-formedness. -/
theorem wf_apply (op : Op) {s : DBState} (h : WF s) : WF (apply op s) := by
  cases op with
  | firstContact t => exact wf_first_contact t h
  | registerUpload t fn fh sz => exact wf_register_upload t fn fh sz h
  | deleteDoc t i => exact wf_delete_document t i h
  | leaseNext w dur => exact wf_lease_next w dur h
  | reportSuccess qid => exact wf_report_success qid h
  | reportFailure qid err => exact wf_report_failure qid err h
  | reclaim => exact wf_reclaim h
  | tick k => exact wf_tick k h
  | initSession t => exact wf_init_session t h
  | cleanupSessions => exact wf_cleanup h

/-- The empty initial state is well-formed. -/
theorem wf_init : WF initState := by
  refine ⟨?_, ?_, ?_, ?_, ?_, ?_, ?_, ?_⟩ <;> simp [initState]

/-- Every reachable state is well-formed. -/
theorem reachable_wf {s : DBState} (h : Reachable s) : WF s := by
  induction h with
  | init => exact wf_init
  | step op h ih => exact wf_apply op ih

end Preservation

section Scheduling

/-- Dispatch order is reflexive. -/
theorem dispatch_le_refl (a : Job) : dispatch_le a a = true := by
  simp [dispatch_le]

/-- Dispatch order is transitive. -/
theorem dispatch_le_trans {a b c : Job} (h1 : dispatch_le a b = true)
    (h2 : dispatch_le b c = true) : dispatch_le a c = true := by
  simp only [dispatch_le, decide_eq_true_eq] at h1 h2 ⊢
  omega

/-- Dispatch order is total. -/
theorem dispatch_le_total (a b : Job) :
    dispatch_le a b = true ∨ dispatch_le b a = true := by
  simp only [dispatch_le, decide_eq_true_eq]
  omega

/-- The fold that selects the best job returns an element of the list or
the incoming accumulator. -/
theorem foldl_chooseJob_mem : ∀ (l : List Job) (acc : Option Job) (r : Job),
    l.foldl chooseJob acc = some r → r ∈ l ∨ acc = some r := by
  intro l
  induction l with
  | nil => intro acc r h; right; exact h
  | cons j l ih =>
    intro acc r h
    rw [List.foldl_cons] at h
    rcases ih (chooseJob acc j) r h with hr | hacc
    · left; exact List.mem_cons_of_mem _ hr
    · cases acc with
      | none =>
        left
        simp only [chooseJob, Option.some.injEq] at hacc
        rw [← hacc]
        exact List.mem_cons_self j l
      | some a =>
        simp only [chooseJob, Option.some.injEq] at hacc
        by_cases hc : dispatch_le a j = true
        · right; rw [if_pos hc] at hacc; rw [hacc]
        · left; rw [if_neg hc] at hacc; rw [← hacc]; exact List.mem_cons_self j l

/-- The fold that selects the best job returns a lower bound of the list
and of the incoming accumulator. -/
theorem foldl_chooseJob_le : ∀ (l : List Job) (acc : Option Job) (r : Job),
    l.foldl chooseJob acc = some r →
    (∀ x ∈ l, dispatch_le r x = true) ∧
      (∀ a, acc = some a → dispatch_le r a = true) := by
  intro l
  induction l with
  | nil =>
    intro acc r h
    rw [List.foldl_nil] at h
    refine ⟨fun x hx => absurd hx (List.not_mem_nil x), ?_⟩
    intro a ha
    rw [h] at ha
    injection ha with ha2
    rw [← ha2]
    exact dispatch_le_refl r
  | cons j l ih =>
    intro acc r h
    rw [List.foldl_cons] at h
    obtain ⟨hl, hacc⟩ := ih (chooseJob acc j) r h
    constructor
    · intro x hx
      rcases List.mem_cons.mp hx with rfl | hx2
      · cases acc with
        | none => exact hacc x rfl
        | some a =>
          by_cases hc : dispatch_le a x = true
          · have hra := hacc a (by simp [chooseJob, if_pos hc])
            exact dispatch_le_trans hra hc
          · exact hacc x (by simp [chooseJob, if_neg hc])
      · exact hl x hx2
    · intro a ha
      rw [ha] at hacc
      by_cases hc : dispatch_le a j = true
      · exact hacc a (by simp [chooseJob, if_pos hc])
      · have hrj := hacc j (by simp [chooseJob, if_neg hc])
        have haj : dispatch_le j a = true := (dispatch_le_total a j).resolve_left hc
        exact dispatch_le_trans hrj haj

/-- A job returned by the selection phase is an eligible member of the
queue. -/
theorem selectNext_mem {now : Nat} {q : List Job} {j : Job}
    (h : selectNext now q = some j) : j ∈ q ∧ eligibleB now j = true := by
  unfold selectNext at h
  rcases foldl_chooseJob_mem _ _ _ h with hm | hacc
  · have := List.mem_filter.mp hm
    exact ⟨this.1, this.2⟩
  · exact absurd hacc (by simp)

/-- A job returned by the selection phase is dispatch-minimal among the
eligible jobs. -/
theorem selectNext_min {now : Nat} {q : List Job} {j : Job}
    (h : selectNext now q = some j) :
    ∀ k ∈ q, eligibleB now k = true → dispatch_le j k = true := by
  unfold selectNext at h
  intro k hk hel
  exact (foldl_chooseJob_le _ _ _ h).1 k (List.mem_filter.mpr ⟨hk, hel⟩)

/-- Inversion of a successful conditional claim: documents and clock are
untouched, the returned job is the stamped image of an unleased queue
entry with the requested id. -/
theorem claim_inv {s : DBState} {qid w dur : Nat} {j2 : Job} {s2 : DBState}
    (h : claim_if_unleased s qid w dur = some (j2, s2)) :
    s2.documents = s.documents ∧ j2.queue_id = qid ∧ j2.worker_id = some w ∧
      ∃ jf ∈ s.queue, jf.document_id = j2.document_id ∧ jf.worker_id = none := by
  unfold claim_if_unleased at h
  cases hf : s.queue.find? (fun k => k.queue_id == qid && k.worker_id == none) with
  | none => rw [hf] at h; exact absurd h (by simp)
  | some j0 =>
    rw [hf] at h
    simp only [Option.some.injEq, Prod.mk.injEq] at h
    obtain ⟨hj, hs⟩ := h
    have hp := List.find?_some hf
    simp only [Bool.and_eq_true, beq_iff_eq] at hp
    refine ⟨by rw [← hs], ?_, ?_, j0, List.mem_of_find?_eq_some hf, ?_, ?_⟩
    · rw [← hj]; exact hp.1
    · rw [← hj]
    · rw [← hj]
    · simpa using hp.2

/-- A claim on a queue with no unleased entry of the requested id fails. -/
theorem claim_of_find?_none {s : DBState} {qid w dur : Nat}
    (h : s.queue.find? (fun k => k.queue_id == qid && k.worker_id == none) = none) :
    claim_if_unleased s qid w dur = none := by
  unfold claim_if_unleased
  rw [h]

/-- After one worker wins the conditional claim, a second claim of the
same job fails: every entry with that id is now leased. -/
theorem claim_exclusive_core {s : DBState} {qid w1 dur1 : Nat} {j : Job}
    {s2 : DBState} (h : claim_if_unleased s qid w1 dur1 = some (j, s2))
    (w2 dur2 : Nat) : claim_if_unleased s2 qid w2 dur2 = none := by
  unfold claim_if_unleased at h
  cases hf : s.queue.find? (fun k => k.queue_id == qid && k.worker_id == none) with
  | none => rw [hf] at h; exact absurd h (by simp)
  | some j0 =>
    rw [hf] at h
    simp only [Option.some.injEq, Prod.mk.injEq] at h
    obtain ⟨hj, hs⟩ := h
    rw [← hs]
    have hnone : (s.queue.map (fun k =>
        if k.queue_id == qid && k.worker_id == none then
          { k with worker_id := some w1, lease_expires := some (s.now + dur1) }
        else k)).find? (fun k => k.queue_id == qid && k.worker_id == none) = none := by
      rw [List.find?_eq_none]
      intro x hx
      rcases List.mem_map.mp hx with ⟨x0, hx0, rfl⟩
      by_cases hc : (x0.queue_id == qid && x0.worker_id == none) = true
      · rw [if_pos hc]
        simp
      · rw [if_neg hc]
        simpa using hc
    exact claim_of_find?_none hnone

end Scheduling

section ErrorTerminal

/-- In a well-formed state no queued job points at an error document. -/
theorem error_no_job {s : DBState} (hwf : WF s) {d : Document}
    (hd : d ∈ s.documents) (herr : d.status = DocStatus.error) :
    ∀ k ∈ s.queue, k.document_id ≠ d.document_id := by
  intro k hk hkd
  rcases hwf.job_doc k hk with ⟨d2, hd2, hdid, hst⟩
  have hde : d2 = d := key_unique Document.document_id hwf.docs_nodup d2 hd2 d hd
    (by rw [hdid, hkd])
  rw [hde, herr] at hst
  rcases hst with h1 | h1 <;> simp at h1

/-- In a well-formed state the error document with a given id is unique. -/
theorem error_unique {s : DBState} (hwf : WF s) {d : Document}
    (hd : d ∈ s.documents) (herr : d.status = DocStatus.error) :
    ∀ d2 ∈ s.documents, d2.document_id = d.document_id →
      d2.status = DocStatus.error := by
  intro d2 hd2 hdid
  rw [key_unique Document.document_id hwf.docs_nodup d2 hd2 d hd hdid]
  exact herr

/-- Status preservation under a document map that only touches one
document id, different from the error document's id. -/
theorem error_map_stays {s : DBState} (hwf : WF s) {d : Document}
    (hd : d ∈ s.documents) (herr : d.status = DocStatus.error)
    {i0 : Nat} (hno : i0 ≠ d.document_id) (G : Document → Document)
    (hGid : ∀ x, (G x).document_id = x.document_id)
    (hGsafe : ∀ x, ¬ x.document_id = i0 → G x = x) :
    ∀ d2 ∈ s.documents.map G, d2.document_id = d.document_id →
      d2.status = DocStatus.error := by
  intro d2 hd2 hdid
  rcases List.mem_map.mp hd2 with ⟨x, hx, rfl⟩
  rw [hGid] at hdid
  have hxi : ¬ x.document_id = i0 := by omega
  rw [hGsafe x hxi]
  exact error_unique hwf hd herr x hx hdid

/-- Once a document is in terminal error, no single operation changes
its status: any document with the same id after the step is still in
error (deletion removes it, which is handled by the membership
hypothesis failing). -/
theorem error_stays {s : DBState} (hwf : WF s) {d : Document}
    (hd : d ∈ s.documents) (herr : d.status = DocStatus.error) (op : Op) :
    ∀ d2 ∈ (apply op s).documents, d2.document_id = d.document_id →
      d2.status = DocStatus.error := by
  have hnojob := error_no_job hwf hd herr
  cases op with
  | firstContact t =>
    simp only [apply]
    have hdocs : (first_contact s t).documents = s.documents := by
      unfold first_contact
      split <;> rfl
    rw [hdocs]
    exact error_unique hwf hd herr
  | tick k =>
    exact error_unique hwf hd herr
  | initSession t =>
    exact error_unique hwf hd herr
  | cleanupSessions =>
    exact error_unique hwf hd herr
  | reclaim =>
    exact error_unique hwf hd herr
  | registerUpload t fn fh sz =>
    simp only [apply]
    cases hfu : s.users.find? (fun x => x.ip_hash == t) with
    | none =>
      have heq : (register_upload s t fn fh sz).2 = s := by
        simp [register_upload, hfu]
      rw [heq]
      exact error_unique hwf hd herr
    | some u0 =>
      cases hfd : s.documents.find? (fun x => x.ip_hash == t && x.file_hash == fh) with
      | some dup =>
        have heq : (register_upload s t fn fh sz).2 = s := by
          simp [register_upload, hfu, hfd]
        rw [heq]
        exact error_unique hwf hd herr
      | none =>
        by_cases hq : u0.quota_limit_bytes < u0.storage_used_bytes + (sz : Int)
        · have heq : (register_upload s t fn fh sz).2 = s := by
            simp [register_upload, hfu, hfd, hq]
          rw [heq]
          exact error_unique hwf hd herr
        · have hu0mem : u0 ∈ s.users := List.mem_of_find?_eq_some hfu
          have hu0t : u0.ip_hash = t := by
            have := List.find?_some hfu; simpa using this
          have hany : s.users.any (fun x => x.ip_hash == t) = true :=
            List.any_eq_true.mpr ⟨u0, hu0mem, by simp [hu0t]⟩
          have heq : (register_upload s t fn fh sz).2 =
              { s with documents := new_document s t fn fh sz :: s.documents,
                       queue := new_job s t :: s.queue,
                       users := s.users.map (fun u => if u.ip_hash == t then
                         { u with document_count := u.document_count + 1,
                                  storage_used_bytes := u.storage_used_bytes + (sz : Int) }
                         else u),
                       nextId := s.nextId + 2 } := by
            simp [register_upload, hfu, hfd, hq, update_user_stats_insert, hany]
          rw [heq]
          intro d2 hd2 hdid
          rcases List.mem_cons.mp hd2 with rfl | hd3
          · exfalso
            have hlt := hwf.docs_lt d hd
            have hnx : s.nextId = d.document_id := hdid
            omega
          · exact error_unique hwf hd herr d2 hd3 hdid
  | deleteDoc t i =>
    simp only [apply]
    cases hf : s.documents.find? (fun x => x.ip_hash == t && x.document_id == i) with
    | none =>
      have heq : (delete_document s t i).2 = s := by simp [delete_document, hf]
      rw [heq]
      exact error_unique hwf hd herr
    | some d0 =>
      have heq : (delete_document s t i).2 =
          { s with documents := s.documents.filter (fun x => !(x.document_id == i)),
                   queue := s.queue.filter (fun jb => !(jb.document_id == i)),
                   users := update_user_stats_delete s.users t d0.original_size } := by
        simp [delete_document, hf]
      rw [heq]
      intro d2 hd2 hdid
      exact error_unique hwf hd herr d2 (List.mem_of_mem_filter hd2) hdid
  | leaseNext w dur =>
    simp only [apply]
    rcases lease_next_state s w dur with heq | ⟨j, p, hsel, hcl, heq⟩
    · rw [heq]
      exact error_unique hwf hd herr
    · rw [heq]
      obtain ⟨hdocs2, hqid, hw, jf, hjf, hjfid, hjfw⟩ := claim_inv hcl
      have hi0 : p.1.document_id ≠ d.document_id := by
        rw [← hjfid]
        exact hnojob jf hjf
      have hmp : (mark_processing p.2 p.1.document_id).documents =
          s.documents.map (fun x => if x.document_id == p.1.document_id then
            { x with status := DocStatus.processing } else x) := by
        simp only [mark_processing]
        rw [hdocs2]
      rw [hmp]
      refine error_map_stays hwf hd herr hi0 _ ?_ ?_
      · intro x; split <;> rfl
      · intro x hx
        rw [if_neg (by simpa using hx)]
  | reportSuccess qid =>
    simp only [apply]
    cases hf : s.queue.find? (fun k => k.queue_id == qid) with
    | none =>
      have heq : report_success s qid = s := by simp [report_success, hf]
      rw [heq]
      exact error_unique hwf hd herr
    | some j0 =>
      have hj0mem : j0 ∈ s.queue := List.mem_of_find?_eq_some hf
      have hi0 : j0.document_id ≠ d.document_id := hnojob j0 hj0mem
      have heq : report_success s qid =
          { s with queue := s.queue.filter (fun k => !(k.queue_id == qid)),
                   documents := s.documents.map (fun x =>
                     if x.document_id == j0.document_id then
                       { x with status := DocStatus.completed } else x) } := by
        simp [report_success, hf]
      rw [heq]
      refine error_map_stays hwf hd herr hi0 _ ?_ ?_
      · intro x; split <;> rfl
      · intro x hx
        rw [if_neg (by simpa using hx)]
  | reportFailure qid err =>
    simp only [apply]
    cases hf : s.queue.find? (fun k => k.queue_id == qid) with
    | none =>
      have heq : report_failure s qid err = s := by simp [report_failure, hf]
      rw [heq]
      exact error_unique hwf hd herr
    | some j0 =>
      have hj0mem : j0 ∈ s.queue := List.mem_of_find?_eq_some hf
      have hi0 : j0.document_id ≠ d.document_id := hnojob j0 hj0mem
      by_cases hatt : j0.attempts + 1 < j0.max_attempts
      · have heq : report_failure s qid err = fail_retry s qid err j0 := by
          simp [report_failure, hf, hatt]
        rw [heq]
        refine error_map_stays hwf hd herr hi0 _ ?_ ?_
        · intro x; split <;> rfl
        · intro x hx
          rw [if_neg (by simpa using hx)]
      · have heq : report_failure s qid err = fail_terminal s qid err j0 := by
          simp [report_failure, hf, hatt]
        rw [heq]
        refine error_map_stays hwf hd herr hi0 _ ?_ ?_
        · intro x; split <;> rfl
        · intro x hx
          rw [if_neg (by simpa using hx)]

end ErrorTerminal



section Claims

/-- C1: for distinct tenants, a lookup of another tenant's document id
returns none (NotFoundError), exactly like a lookup of an id that does
not exist at all. -/
theorem C1_tenant_isolation :
    ∀ (s : DBState) (t1 t2 : Nat) (d : Document), Reachable s →
      d ∈ s.documents → d.ip_hash = t1 → t1 ≠ t2 →
      get_document s t2 d.document_id = none ∧
      ∀ i : Nat, (∀ d2 ∈ s.documents, d2.document_id ≠ i) →
        get_document s t2 i = none := by
  intro s t1 t2 d hreach hd hdt hne
  have hwf := reachable_wf hreach
  constructor
  · unfold get_document
    rw [List.find?_eq_none]
    intro x hx hpred
    simp only [Bool.and_eq_true, beq_iff_eq] at hpred
    obtain ⟨hx2, hxi⟩ := hpred
    have hxd : x = d := key_unique Document.document_id hwf.docs_nodup x hx d hd hxi
    rw [hxd, hdt] at hx2
    exact hne hx2
  · intro i hno
    unfold get_document
    rw [List.find?_eq_none]
    intro x hx hpred
    simp only [Bool.and_eq_true, beq_iff_eq] at hpred
    exact hno x hx hpred.2

/-- Witness for C1 at a concrete reachable state: tenant 2 cannot see
tenant 1's document, and a fresh id is equally invisible. -/
theorem C1_witness :
    get_document wsA 2 docA.document_id = none ∧
    ∀ i : Nat, (∀ d2 ∈ wsA.documents, d2.document_id ≠ i) →
      get_document wsA 2 i = none :=
  C1_tenant_isolation wsA 1 2 docA
    (Reachable.step (Op.registerUpload 1 "a" 10 100)
      (Reachable.step (Op.firstContact 1) Reachable.init))
    (by decide) (by decide) (by decide)

/-- C2: at most one worker ever holds a lease on a job — queue entries
are unique per job id, each carries at most one worker, and the
claim-if-unclaimed conditional update can succeed at most once: after
one worker wins, a racing claim on the same job fails. -/
theorem C2_lease_exclusive :
    (∀ s : DBState, Reachable s → ∀ j1 ∈ s.queue, ∀ j2 ∈ s.queue,
       j1.queue_id = j2.queue_id → j1 = j2) ∧
    (∀ (s : DBState) (qid w1 dur1 : Nat) (j : Job) (s2 : DBState),
       claim_if_unleased s qid w1 dur1 = some (j, s2) →
       ∀ w2 dur2 : Nat, claim_if_unleased s2 qid w2 dur2 = none) := by
  constructor
  · intro s hreach j1 h1 j2 h2 heq
    exact key_unique Job.queue_id (reachable_wf hreach).queue_nodup j1 h1 j2 h2 heq
  · intro s qid w1 dur1 j s2 h w2 dur2
    exact claim_exclusive_core h w2 dur2

/-- Witness for C2: worker 7 wins the claim on job 1 of wsA; worker 8's
subsequent claim on the same job fails; and the unique job of wsA is
equal to itself by uniqueness. -/
theorem C2_witness :
    claim_if_unleased wsA7 1 8 5 = none ∧ jobA0 = jobA0 :=
  ⟨C2_lease_exclusive.2 wsA 1 7 5 jobA7 wsA7 (by decide) 8 5,
   C2_lease_exclusive.1 wsA
     (Reachable.step (Op.registerUpload 1 "a" 10 100)
       (Reachable.step (Op.firstContact 1) Reachable.init))
     jobA0 (by decide) jobA0 (by decide) rfl⟩

/-- C4: when the tenant's usage plus the upload size exceeds the quota
(and the bytes are not a duplicate, which the spec resolves first),
register_upload returns QuotaExceededError and the state is unchanged:
no Document, no Job, no counter movement. -/
theorem C4_quota_rejected :
    ∀ (s : DBState) (t : Nat) (fn : String) (fh sz : Nat) (u : IpUser),
      s.users.find? (fun x => x.ip_hash == t) = some u →
      s.documents.find? (fun x => x.ip_hash == t && x.file_hash == fh) = none →
      u.quota_limit_bytes < u.storage_used_bytes + (sz : Int) →
      register_upload s t fn fh sz = (UploadResult.quotaExceeded, s) := by
  intro s t fn fh sz u hfu hfd hq
  simp [register_upload, hfu, hfd, hq]

/-- Witness for C4: a 2 GB upload against the default 1 GiB quota is
rejected with the state unchanged. -/
theorem C4_witness :
    register_upload wsF 1 "big" 77 2000000000 = (UploadResult.quotaExceeded, wsF) :=
  C4_quota_rejected wsF 1 "big" 77 2000000000 userF
    (by decide) (by decide) (by decide)

/-- C5: in every reachable state each tenant's counters equal the count
and byte-sum of that tenant's non-deleted documents, and are never
negative. -/
theorem C5_usage_counters :
    ∀ s : DBState, Reachable s → ∀ u ∈ s.users,
      u.document_count = (tenantDocCount u.ip_hash s.documents : Int) ∧
      u.storage_used_bytes = (tenantBytes u.ip_hash s.documents : Int) ∧
      0 ≤ u.document_count ∧ 0 ≤ u.storage_used_bytes := by
  intro s h u hu
  have hc := (reachable_wf h).counters u hu
  refine ⟨hc.1, hc.2, ?_, ?_⟩
  · rw [hc.1]; exact Int.natCast_nonneg _
  · rw [hc.2]; exact Int.natCast_nonneg _

/-- Witness for C5 at wsA: the tenant row shows one document of 100
bytes, matching the document table. -/
theorem C5_witness :
    userA.document_count = (tenantDocCount userA.ip_hash wsA.documents : Int) ∧
    userA.storage_used_bytes = (tenantBytes userA.ip_hash wsA.documents : Int) ∧
    0 ≤ userA.document_count ∧ 0 ≤ userA.storage_used_bytes :=
  C5_usage_counters wsA
    (Reachable.step (Op.registerUpload 1 "a" 10 100)
      (Reachable.step (Op.firstContact 1) Reachable.init))
    userA (by decide)

/-- Head-hit case of find? on a cons cell. -/
theorem find?_cons_pos {α : Type} (p : α → Bool) (a : α) (l : List α)
    (h : p a = true) : (a :: l).find? p = some a := by
  simp [List.find?, h]

/-- Head-miss case of find? on a cons cell. -/
theorem find?_cons_neg {α : Type} (p : α → Bool) (a : α) (l : List α)
    (h : p a = false) : (a :: l).find? p = l.find? p := by
  simp [List.find?, h]

/-- Find-after-increment: the trigger increment maps the tenant's row to
its incremented version, keeping its position in the registry. -/
theorem find?_users_inc (users : List IpUser) (t sz : Nat) (u : IpUser)
    (h : users.find? (fun x => x.ip_hash == t) = some u) :
    (users.map (fun v => if v.ip_hash == t then
      { v with document_count := v.document_count + 1,
               storage_used_bytes := v.storage_used_bytes + (sz : Int) }
      else v)).find? (fun x => x.ip_hash == t) =
    some { u with document_count := u.document_count + 1,
                  storage_used_bytes := u.storage_used_bytes + (sz : Int) } := by
  induction users with
  | nil => simp at h
  | cons v l ih =>
    by_cases hv : (v.ip_hash == t) = true
    · rw [find?_cons_pos (fun x : IpUser => x.ip_hash == t) v l hv] at h
      injection h with h2
      subst h2
      rw [List.map_cons, if_pos hv]
      exact find?_cons_pos (fun x : IpUser => x.ip_hash == t) _ _ hv
    · have hv2 : (v.ip_hash == t) = false := by
        simpa using hv
      rw [find?_cons_neg (fun x : IpUser => x.ip_hash == t) v l hv2] at h
      rw [List.map_cons, if_neg hv]
      rw [find?_cons_neg (fun x : IpUser => x.ip_hash == t) _ _ hv2]
      exact ih h

/-- C3: uploading identical bytes twice under one tenant: the first call
creates the row, the second returns exactly that row (same document id),
changes nothing, and document_count rises by exactly one across the two
uploads. -/
theorem C3_idempotent_upload :
    ∀ (s : DBState) (t : Nat) (fn fn2 : String) (fh sz : Nat) (u : IpUser),
      s.users.find? (fun x => x.ip_hash == t) = some u →
      s.documents.find? (fun x => x.ip_hash == t && x.file_hash == fh) = none →
      u.storage_used_bytes + (sz : Int) ≤ u.quota_limit_bytes →
      (register_upload s t fn fh sz).1 =
        UploadResult.created (new_document s t fn fh sz) ∧
      (register_upload (register_upload s t fn fh sz).2 t fn2 fh sz).1 =
        UploadResult.existing (new_document s t fn fh sz) ∧
      (register_upload (register_upload s t fn fh sz).2 t fn2 fh sz).2 =
        (register_upload s t fn fh sz).2 ∧
      ((register_upload s t fn fh sz).2.users.find?
          (fun x => x.ip_hash == t)).map IpUser.document_count =
        some (u.document_count + 1) := by
  intro s t fn fn2 fh sz u hfu hfd hquota
  have hqn : ¬ u.quota_limit_bytes < u.storage_used_bytes + (sz : Int) := by omega
  have humem : u ∈ s.users := List.mem_of_find?_eq_some hfu
  have hut : u.ip_hash = t := by have := List.find?_some hfu; simpa using this
  have hany : s.users.any (fun x => x.ip_hash == t) = true :=
    List.any_eq_true.mpr ⟨u, humem, by simp [hut]⟩
  have heq2 : (register_upload s t fn fh sz).2 = upload_state s t fn fh sz := by
    simp [register_upload, upload_state, hfu, hfd, hqn, update_user_stats_insert, hany]
  have heq1 : (register_upload s t fn fh sz).1 =
      UploadResult.created (new_document s t fn fh sz) := by
    simp [register_upload, hfu, hfd, hqn]
  have hfind1 := find?_users_inc s.users t sz u hfu
  have hpred : ((new_document s t fn fh sz).ip_hash == t &&
      (new_document s t fn fh sz).file_hash == fh) = true := by
    simp [new_document]
  have husers : (upload_state s t fn fh sz).users =
      s.users.map (fun v => if v.ip_hash == t then
        { v with document_count := v.document_count + 1,
                 storage_used_bytes := v.storage_used_bytes + (sz : Int) }
        else v) := rfl
  have hdocs : (upload_state s t fn fh sz).documents =
      new_document s t fn fh sz :: s.documents := rfl
  have hstep : register_upload (upload_state s t fn fh sz) t fn2 fh sz =
      (UploadResult.existing (new_document s t fn fh sz),
        upload_state s t fn fh sz) := by
    unfold register_upload
    rw [husers, hfind1, hdocs,
      find?_cons_pos (fun x : Document => x.ip_hash == t && x.file_hash == fh)
        _ _ hpred]
  refine ⟨heq1, ?_, ?_, ?_⟩
  · rw [heq2, hstep]
  · rw [heq2, hstep]
  · rw [heq2, husers, hfind1]
    rfl

/-- Witness for C3: tenant 1 uploads the same 100-byte content twice;
the second call returns the first row and the count rises once. -/
theorem C3_witness :
    (register_upload wsF 1 "a" 10 100).1 =
      UploadResult.created (new_document wsF 1 "a" 10 100) ∧
    (register_upload (register_upload wsF 1 "a" 10 100).2 1 "b" 10 100).1 =
      UploadResult.existing (new_document wsF 1 "a" 10 100) ∧
    (register_upload (register_upload wsF 1 "a" 10 100).2 1 "b" 10 100).2 =
      (register_upload wsF 1 "a" 10 100).2 ∧
    ((register_upload wsF 1 "a" 10 100).2.users.find?
        (fun x => x.ip_hash == 1)).map IpUser.document_count =
      some (userF.document_count + 1) :=
  C3_idempotent_upload wsF 1 "a" "b" 10 100 userF
    (by decide) (by decide) (by decide)

/-- Inversion of a successful lease_next: a job was selected and then
claimed, and the returned state marks its document as processing. -/
theorem lease_next_some {s : DBState} {w dur : Nat} {j2 : Job} {s2 : DBState}
    (h : lease_next s w dur = (some j2, s2)) :
    ∃ j sc, selectNext s.now s.queue = some j ∧
      claim_if_unleased s j.queue_id w dur = some (j2, sc) ∧
      s2 = mark_processing sc j2.document_id := by
  cases hsel : selectNext s.now s.queue with
  | none =>
    rw [show lease_next s w dur = (none, s) from by simp [lease_next, hsel]] at h
    exact absurd h (by simp)
  | some j =>
    cases hcl : claim_if_unleased s j.queue_id w dur with
    | none =>
      rw [show lease_next s w dur = (none, s) from by simp [lease_next, hsel, hcl]] at h
      exact absurd h (by simp)
    | some p =>
      obtain ⟨jc, sc⟩ := p
      rw [show lease_next s w dur = (some jc, mark_processing sc jc.document_id)
        from by simp [lease_next, hsel, hcl]] at h
      simp only [Prod.mk.injEq, Option.some.injEq] at h
      obtain ⟨h1, h2⟩ := h
      subst h1
      exact ⟨j, sc, rfl, hcl, h2.symm⟩

/-- C6: lease_next always hands out an eligible job that is minimal in
the dispatch order (priority, created_at, submission); in particular
jobs submitted with priorities [5, 1, 5, 3] are dispatched as the
priority-1 job, the priority-3 job, then the two priority-5 jobs in
submission order. -/
theorem C6_dispatch_order :
    (∀ (s : DBState) (w dur : Nat) (j2 : Job) (s2 : DBState),
       lease_next s w dur = (some j2, s2) →
       ∃ j ∈ s.queue, j.queue_id = j2.queue_id ∧ j.worker_id = none ∧
         j.scheduled_for ≤ s.now ∧
         ∀ k ∈ s.queue, k.worker_id = none → k.scheduled_for ≤ s.now →
           dispatch_le j k = true) ∧
    ((lease1.1.map Job.priority, lease2.1.map Job.priority,
      lease3.1.map Job.priority, lease4.1.map Job.priority) =
        (some 1, some 3, some 5, some 5) ∧
     (lease1.1.map Job.queue_id, lease2.1.map Job.queue_id,
      lease3.1.map Job.queue_id, lease4.1.map Job.queue_id) =
        (some 2, some 4, some 1, some 3)) := by
  constructor
  · intro s w dur j2 s2 h
    obtain ⟨j, sc, hsel, hcl, hs2⟩ := lease_next_some h
    have hsm := selectNext_mem hsel
    have hmin := selectNext_min hsel
    have hel := hsm.2
    simp only [eligibleB, Bool.and_eq_true, beq_iff_eq, decide_eq_true_eq] at hel
    refine ⟨j, hsm.1, ?_, hel.1, hel.2, ?_⟩
    · exact ((claim_inv hcl).2.1).symm
    · intro k hk hkw hks
      exact hmin k hk (by simp [eligibleB, hkw, hks])
  · constructor
    · decide
    · decide

/-- Witness for C6: the first dispatch from the [5, 1, 5, 3] demo queue
satisfies the minimality property at the priority-1 job. -/
theorem C6_witness :
    ∃ j ∈ s6.queue, j.queue_id = jstamped.queue_id ∧ j.worker_id = none ∧
      j.scheduled_for ≤ s6.now ∧
      ∀ k ∈ s6.queue, k.worker_id = none → k.scheduled_for ≤ s6.now →
        dispatch_le j k = true :=
  C6_dispatch_order.1 s6 100 10 jstamped lease1.2 (by decide)

/-- C7: report_failure increments the attempt count; under the limit the
job re-enters the eligible set with a monotonically increasing backoff;
at the limit the Document becomes terminal error, the Job is removed,
and an error document is never re-enqueued by any later operation. -/
theorem C7_failure_retry_terminal :
    (∀ n m : Nat, n < m → backoff n < backoff m) ∧
    (∀ (s : DBState) (qid : Nat) (err : String) (j : Job),
       s.queue.find? (fun k => k.queue_id == qid) = some j →
       j.attempts + 1 < j.max_attempts →
       ∃ j2 ∈ (report_failure s qid err).queue, j2.queue_id = j.queue_id ∧
         j2.attempts = j.attempts + 1 ∧ j2.worker_id = none ∧
         j2.scheduled_for = s.now + backoff (j.attempts + 1)) ∧
    (∀ (s : DBState) (qid : Nat) (err : String) (j : Job),
       s.queue.find? (fun k => k.queue_id == qid) = some j →
       j.max_attempts ≤ j.attempts + 1 →
       (∀ k ∈ (report_failure s qid err).queue, k.queue_id ≠ qid) ∧
       (∀ d ∈ (report_failure s qid err).documents,
          d.document_id = j.document_id → d.status = DocStatus.error)) ∧
    (∀ s : DBState, Reachable s → ∀ d ∈ s.documents,
       d.status = DocStatus.error →
       (∀ k ∈ s.queue, k.document_id ≠ d.document_id) ∧
       ∀ op : Op, ∀ d2 ∈ (apply op s).documents,
         d2.document_id = d.document_id → d2.status = DocStatus.error) := by
  refine ⟨?_, ?_, ?_, ?_⟩
  · intro n m h
    exact Nat.pow_lt_pow_right (by norm_num) h
  · intro s qid err j hf hatt
    have heq : report_failure s qid err = fail_retry s qid err j := by
      simp [report_failure, hf, hatt]
    rw [heq]
    have hjq : (j.queue_id == qid) = true := by
      have := List.find?_some hf; simpa using this
    have hjm : j ∈ s.queue := List.mem_of_find?_eq_some hf
    refine ⟨_, List.mem_map_of_mem _ hjm, ?_, ?_, ?_, ?_⟩ <;> rw [if_pos hjq]
  · intro s qid err j hf hatt
    have hlt : ¬ j.attempts + 1 < j.max_attempts := by omega
    have heq : report_failure s qid err = fail_terminal s qid err j := by
      simp [report_failure, hf, hlt]
    rw [heq]
    constructor
    · intro k hk
      have := (List.mem_filter.mp hk).2
      simpa using this
    · intro d hd hdid
      rcases List.mem_map.mp hd with ⟨x, hx, rfl⟩
      by_cases hc : (x.document_id == j.document_id) = true
      · rw [if_pos hc]
      · rw [if_neg hc] at hdid
        exact absurd hdid (by simpa using hc)
  · intro s hreach d hd herr
    have hwf := reachable_wf hreach
    exact ⟨error_no_job hwf hd herr, fun op => error_stays hwf hd herr op⟩

/-- Witness for C7: backoff grows, a first failure of wsA's job retries
with attempts 1 and backoff delay, a third failure of a two-failure job
is terminal, and the terminal-error document of wsErr (reached by three
real failures) has no job and stays in error under every operation. -/
theorem C7_witness :
    backoff 0 < backoff 1 ∧
    (∃ j2 ∈ (report_failure wsA 1 "x").queue, j2.queue_id = jobA0.queue_id ∧
       j2.attempts = jobA0.attempts + 1 ∧ j2.worker_id = none ∧
       j2.scheduled_for = wsA.now + backoff (jobA0.attempts + 1)) ∧
    ((∀ k ∈ (report_failure s7t 1 "y").queue, k.queue_id ≠ 1) ∧
     (∀ d ∈ (report_failure s7t 1 "y").documents,
        d.document_id = jobA2.document_id → d.status = DocStatus.error)) ∧
    ((∀ k ∈ wsErr.queue, k.document_id ≠ docErr.document_id) ∧
     ∀ op : Op, ∀ d2 ∈ (apply op wsErr).documents,
       d2.document_id = docErr.document_id → d2.status = DocStatus.error) :=
  ⟨C7_failure_retry_terminal.1 0 1 (by decide),
   C7_failure_retry_terminal.2.1 wsA 1 "x" jobA0 (by decide) (by decide),
   C7_failure_retry_terminal.2.2.1 s7t 1 "y" jobA2 (by decide) (by decide),
   C7_failure_retry_terminal.2.2.2 wsErr
     (Reachable.step (Op.reportFailure 1 "e")
       (Reachable.step (Op.leaseNext 100 10)
         (Reachable.step (Op.tick 4)
           (Reachable.step (Op.reportFailure 1 "e")
             (Reachable.step (Op.leaseNext 100 10)
               (Reachable.step (Op.tick 2)
                 (Reachable.step (Op.reportFailure 1 "e")
                   (Reachable.step (Op.leaseNext 100 10)
                     (Reachable.step (Op.registerUpload 1 "a" 10 100)
                       (Reachable.step (Op.firstContact 1) Reachable.init))))))))))
     docErr (by decide) (by decide)⟩

/-- C8: the reclamation sweep returns every job with a lapsed lease to
the eligible set with its attempt count incremented by exactly one; a
subsequent lease_next re-offers such a job. -/
theorem C8_reclaim_expired :
    (∀ (s : DBState) (j : Job) (e : Nat), j ∈ s.queue →
       j.lease_expires = some e → e < s.now →
       ∃ j2 ∈ (reclaim_expired_leases s).queue, j2.queue_id = j.queue_id ∧
         j2.attempts = j.attempts + 1 ∧ j2.worker_id = none ∧
         j2.scheduled_for = s.now) ∧
    ((lease_next (reclaim_expired_leases s8) 101 10).1.map
        (fun j => (j.queue_id, j.attempts, j.worker_id)) =
      some (1, 1, some 101)) := by
  constructor
  · intro s j e hj hle hlt
    have hexp : leaseExpired s.now j = true := by
      simp [leaseExpired, hle, hlt]
    refine ⟨_, List.mem_map_of_mem _ hj, ?_, ?_, ?_, ?_⟩ <;> rw [if_pos hexp]
  · decide

/-- Witness for C8: the orphaned lease of s8 is reclaimed with attempts
going from 0 to 1 and immediate eligibility. -/
theorem C8_witness :
    ∃ j2 ∈ (reclaim_expired_leases s8).queue, j2.queue_id = jobB.queue_id ∧
      j2.attempts = jobB.attempts + 1 ∧ j2.worker_id = none ∧
      j2.scheduled_for = s8.now :=
  C8_reclaim_expired.1 s8 jobB 3 (by decide) (by decide) (by decide)

/-- C10: a new session expires exactly 24 hours after creation by
default, and one expiry sweep deactivates exactly the still-active
sessions whose expiry has passed, leaves the others unchanged, and
returns the number it deactivated. -/
theorem C10_session_expiry :
    (∀ (s : DBState) (t : Nat),
       (init_session s t).1.expires_at = (init_session s t).1.created_at + 24 ∧
       (init_session s t).1.is_active = true ∧
       (init_session s t).1 ∈ (init_session s t).2.sessions) ∧
    (∀ s : DBState,
       (∀ ss ∈ s.sessions, ss.is_active = true → ss.expires_at < s.now →
          { ss with is_active := false } ∈ (cleanup_expired_sessions s).2.sessions) ∧
       (∀ ss ∈ s.sessions, ¬ (ss.is_active = true ∧ ss.expires_at < s.now) →
          ss ∈ (cleanup_expired_sessions s).2.sessions) ∧
       (∀ ss ∈ (cleanup_expired_sessions s).2.sessions, ss.is_active = true →
          s.now ≤ ss.expires_at) ∧
       (cleanup_expired_sessions s).1 =
         s.sessions.countP (fun ss => ss.is_active && decide (ss.expires_at < s.now))) := by
  constructor
  · intro s t
    exact ⟨rfl, rfl, List.mem_cons_self _ _⟩
  · intro s
    refine ⟨?_, ?_, ?_, ?_⟩
    · intro ss hss hact hexp
      have hcond : (decide (ss.expires_at < s.now) && ss.is_active) = true := by
        simp [hact, hexp]
      have himg : (if decide (ss.expires_at < s.now) && ss.is_active then
          { ss with is_active := false } else ss) =
          { ss with is_active := false } := if_pos hcond
      rw [← himg]
      exact List.mem_map_of_mem _ hss
    · intro ss hss hnot
      have hcond : ¬ ((decide (ss.expires_at < s.now) && ss.is_active) = true) := by
        simp only [Bool.and_eq_true, decide_eq_true_eq]
        intro hc
        exact hnot ⟨hc.2, hc.1⟩
      have himg : (if decide (ss.expires_at < s.now) && ss.is_active then
          { ss with is_active := false } else ss) = ss := if_neg hcond
      have hin := List.mem_map_of_mem (fun x : Session =>
        if decide (x.expires_at < s.now) && x.is_active then
          { x with is_active := false } else x) hss
      simp only [] at hin
      rw [himg] at hin
      exact hin
    · intro ss2 hss2 hact
      rcases List.mem_map.mp hss2 with ⟨x, hx, rfl⟩
      by_cases hc : (decide (x.expires_at < s.now) && x.is_active) = true
      · rw [if_pos hc] at hact
        exact absurd hact (by simp)
      · rw [if_neg hc] at hact ⊢
        by_contra hclt
        push_neg at hclt
        exact hc (by simp [hact, hclt])
    · show (s.sessions.filter
          (fun ss => decide (ss.expires_at < s.now) && ss.is_active)).length = _
      rw [List.countP_eq_length_filter]
      congr 1
      apply List.filter_congr
      intro x hx
      simp [Bool.and_comm]

/-- Witness for C10: a session issued in s10 expires at hour 49 = 25 +
24; the sweep over s10 deactivates the lapsed active session and
reports one deactivation. -/
theorem C10_witness :
    ((init_session s10 9).1.expires_at = (init_session s10 9).1.created_at + 24 ∧
     (init_session s10 9).1.is_active = true ∧
     (init_session s10 9).1 ∈ (init_session s10 9).2.sessions) ∧
    { sessEx with is_active := false } ∈ (cleanup_expired_sessions s10).2.sessions ∧
    (cleanup_expired_sessions s10).1 = 1 :=
  ⟨C10_session_expiry.1 s10 9,
   (C10_session_expiry.2 s10).1 sessEx (by decide) (by decide) (by decide),
   by decide⟩

end Claims

end Bocra
